import Mathlib

/-!
Verification development for check/bounds_script.py: a stateful line-oriented
parser over solver logs that accumulates two tables (a root-bounds table and
an added-variable-details table), joins them when a terminal marker line is
reached, normalizes sentinel dual-bound values, and emits one chart file per
input log.

The pandas DataFrames are modelled as a list of column names plus labelled
rows; cell values are raw string tokens until the script coerces them to
floats (modelled as rationals), with NaN kept as a separate marker.  Fallible
Python operations (indexing, coercion, missing columns) are modelled in the
Except monad with the corresponding runtime error kind.
-/

deriving instance DecidableEq for Except

namespace BoundsScript

/-- Runtime error kinds the script can raise on the paths it exercises. -/
inductive Err where
  | indexError
  | keyError
  | valueError
  | typeError
  deriving DecidableEq, Repr

/-- Exact fraction with explicit integer numerator and denominator, the
model of the float values the script manipulates.  Fractions produced by the
model always carry a positive denominator; comparisons are performed by
cross-multiplication, which agrees with the rational-number order on such
fractions (see the toRat bridge lemmas). -/
structure Frac where
  num : ℤ
  den : ℤ
  deriving DecidableEq, Repr

instance : OfNat Frac 0 := ⟨⟨0, 1⟩⟩

/-- Embedding of a natural count as a fraction. -/
def Frac.ofNat (n : ℕ) : Frac := ⟨n, 1⟩

/-- Comparison a <= b by cross-multiplication. -/
def Frac.le (a b : Frac) : Bool := a.num * b.den ≤ b.num * a.den

/-- Positivity 0 < a by sign of the cross product. -/
def Frac.pos (a : Frac) : Bool := 0 < a.num * a.den

/-- Value equality a == b by cross-multiplication. -/
def Frac.eqv (a b : Frac) : Bool := a.num * b.den = b.num * a.den

/-- The rational number a fraction denotes. -/
def Frac.toRat (a : Frac) : ℚ := (a.num : ℚ) / (a.den : ℚ)

/-- The sentinel threshold -10^20 used for dual-bound normalization. -/
def negInfty : Frac := ⟨-(10 ^ 20), 1⟩

/-- Cell value of a modelled DataFrame: a raw string token (before numeric
coercion), a float (modelled as an exact fraction), or the NaN marker that
pandas uses for missing cells and that np.nan denotes. -/
inductive Val where
  | str (s : String)
  | num (q : Frac)
  | nan
  deriving DecidableEq, Repr

/-- Comparison `v > 0` as pandas evaluates it on a float column: true only on
an actual number greater than zero; NaN compares false. -/
def Val.gtZero : Val → Bool
  | .num q => q.pos
  | _ => false

/-- Comparison `v == i` against a loop index, as pandas evaluates it on a
float column: NaN compares false. -/
def Val.eqIdx (v : Val) (i : ℕ) : Bool :=
  match v with
  | .num q => q.eqv (Frac.ofNat i)
  | _ => false

/-- Greedy decimal-digit reader: accumulated value, number of digits read,
remaining characters. -/
def readDigits (acc : ℕ) (k : ℕ) : List Char → ℕ × ℕ × List Char
  | [] => (acc, k, [])
  | c :: cs =>
      if c.isDigit then readDigits (acc * 10 + (c.toNat - 48)) (k + 1) cs
      else (acc, k, c :: cs)

/-- Exponent suffix of a float literal (the part after an e or E): scale the
mantissa fraction by 10^exponent. -/
def readExp (num den : ℤ) (r : List Char) : Option Frac :=
  let (eneg, r1) : Bool × List Char :=
    match r with
    | '-' :: t => (true, t)
    | '+' :: t => (false, t)
    | t => (false, t)
  let (ev, ek, r2) := readDigits 0 0 r1
  if ek = 0 ∨ r2 ≠ [] then none
  else if eneg then some ⟨num, den * (10 : ℤ) ^ ev⟩
  else some ⟨num * (10 : ℤ) ^ ev, den⟩

/-- Mantissa already read as the fraction num/den; accept an optional
exponent suffix. -/
def readTail (num den : ℤ) : List Char → Option Frac
  | [] => some ⟨num, den⟩
  | 'e' :: r => readExp num den r
  | 'E' :: r => readExp num den r
  | _ => none

/-- Model of Python float(token) on the decimal/exponent literals that occur
in solver logs, as an exact fraction sgn * (ip.fp) * 10^e; returns none when
the token cannot be coerced (which the script never guards against, so a
none here becomes a ValueError). -/
def parseFloat (s : String) : Option Frac :=
  let (sgn, cs1) : ℤ × List Char :=
    match s.data with
    | '-' :: r => (-1, r)
    | '+' :: r => (1, r)
    | r => (1, r)
  let (ip, ik, cs2) := readDigits 0 0 cs1
  match cs2 with
  | '.' :: r =>
      let (fp, fk, cs3) := readDigits 0 0 r
      if ik + fk = 0 then none
      else readTail (sgn * ((ip : ℤ) * (10 : ℤ) ^ fk + (fp : ℤ))) ((10 : ℤ) ^ fk) cs3
  | rest =>
      if ik = 0 then none
      else readTail (sgn * (ip : ℤ)) 1 rest

/-- Character-list prefix test (first argument is the candidate prefix). -/
def listPrefix : List Char → List Char → Bool
  | [], _ => true
  | _ :: _, [] => false
  | c :: cs, d :: ds => c = d && listPrefix cs ds

/-- Model of Python line.startswith(p), executed on the underlying character
lists. -/
def strStarts (s p : String) : Bool :=
  listPrefix p.data s.data

/-- Whitespace tokenizer with an accumulator for the current token
(in reverse). -/
def tokenizeAux : List Char → List Char → List String
  | [], cur => if cur = [] then [] else [⟨cur.reverse⟩]
  | c :: cs, cur =>
      if c.isWhitespace then
        if cur = [] then tokenizeAux cs []
        else ⟨cur.reverse⟩ :: tokenizeAux cs []
      else tokenizeAux cs (c :: cur)

/-- Model of Python str.split() with no separator: split on whitespace runs,
dropping empty tokens. -/
def pySplit (s : String) : List String :=
  tokenizeAux s.data []

/-- Split a character list at every occurrence of the separator, keeping
empty pieces, as Python str.split(sep) does for a one-character sep. -/
def splitOnChar (sep : Char) : List Char → List (List Char)
  | [] => [[]]
  | c :: rest =>
      let r := splitOnChar sep rest
      if c = sep then [] :: r else (c :: r.headD []) :: r.tail

/-- Model of Python s.split(sep) for a one-character separator. -/
def pySplitOn (s : String) (sep : Char) : List String :=
  (splitOnChar sep s.data).map fun l => ⟨l⟩

/-- Last index at which the character c occurs in the list, if any. -/
def lastIdxOf (c : Char) : List Char → ℕ → Option ℕ
  | [], _ => none
  | x :: xs, k =>
      match lastIdxOf c xs (k + 1) with
      | some j => some j
      | none => if x = c then some k else none

/-- Model of os.path.splitext(s)[0]: drop the suffix starting at the last dot,
provided that dot lies after the last path separator and the base name does
not consist solely of leading dots up to it. -/
def splitext0 (s : String) : String :=
  match lastIdxOf '.' s.data 0 with
  | none => s
  | some d =>
      let b : ℕ :=
        match lastIdxOf '/' s.data 0 with
        | none => 0
        | some j => j + 1
      if b < d ∧ (List.range (d - b)).any (fun k => s.data.getD (b + k) '.' ≠ '.') then
        ⟨s.data.take d⟩
      else s

/-- DataFrame model: ordered column names and ordered labelled rows.  A row
is an index label paired with one value per column. -/
structure DF where
  cols : List String
  rows : List (String × List Val)
  deriving DecidableEq, Repr

/-- Model of pd.DataFrame(): no columns, no rows. -/
def DF.emptyDF : DF := ⟨[], []⟩

/-- Model of pd.DataFrame(columns = cs): schema only, no rows yet. -/
def DF.withCols (cs : List String) : DF := ⟨cs, []⟩

/-- Index of a column name (first occurrence), as pandas column lookup. -/
def DF.colIdx (df : DF) (c : String) : Option ℕ :=
  df.cols.findIdx? fun x => x = c

/-- Cell access by row position and column name. -/
def DF.cell (df : DF) (i : ℕ) (c : String) : Option Val :=
  match df.colIdx c with
  | none => none
  | some j =>
      match df.rows[i]? with
      | none => none
      | some r => r.2[j]?

/-- Positional cell access: value of row i at column position j. -/
def DF.entry (df : DF) (i j : ℕ) : Option Val :=
  match df.rows[i]? with
  | none => none
  | some r => r.2[j]?

/-- Label of row i, when the row exists. -/
def DF.labelAt (df : DF) (i : ℕ) : Option String :=
  df.rows[i]?.map Prod.fst

/-- Row labels in order. -/
def DF.labels (df : DF) : List String :=
  df.rows.map Prod.fst

/-- Well-formedness: every row has exactly one value per column. -/
def DF.WF (df : DF) : Prop :=
  ∀ r ∈ df.rows, r.2.length = df.cols.length

instance (df : DF) : Decidable df.WF := by
  unfold DF.WF; infer_instance

/-- Model of df.loc[label] = vals: replace the row(s) with this label, or
append a new row; raises ValueError when the value list does not match the
column schema (in particular on a frame with no columns). -/
def DF.locSet (df : DF) (label : String) (vals : List Val) : Except Err DF :=
  if df.cols.length = 0 ∨ vals.length ≠ df.cols.length then .error .valueError
  else if df.rows.any fun r => r.1 = label then
    .ok ⟨df.cols, df.rows.map fun r => if r.1 = label then (r.1, vals) else r⟩
  else .ok ⟨df.cols, df.rows ++ [(label, vals)]⟩

/-- Model of df[col] = v on a scalar v: overwrite the column if present,
otherwise append it, filling every row with v. -/
def DF.addColConst (df : DF) (col : String) (v : Val) : DF :=
  match df.colIdx col with
  | some j => ⟨df.cols, df.rows.map fun r => (r.1, r.2.set j v)⟩
  | none => ⟨df.cols ++ [col], df.rows.map fun r => (r.1, r.2 ++ [v])⟩

/-- Model of df.set_value(label, col, v): create the column if missing, then
update the cell of every row carrying the label, or append a fresh row
(label, NaN everywhere except v at col) when no row carries it. -/
def DF.setValue (df : DF) (label : String) (col : String) (v : Val) : DF :=
  let df' : DF :=
    match df.colIdx col with
    | some _ => df
    | none => ⟨df.cols ++ [col], df.rows.map fun r => (r.1, r.2 ++ [Val.nan])⟩
  let j := (df'.colIdx col).getD 0
  if df'.rows.any fun r => r.1 = label then
    ⟨df'.cols, df'.rows.map fun r => if r.1 = label then (r.1, r.2.set j v) else r⟩
  else
    ⟨df'.cols, df'.rows ++ [(label, (List.range df'.cols.length).map fun k => if k = j then v else Val.nan)]⟩

/-- Label a row by the value of its index column, as df.set_index does with a
string-valued column. -/
def valToLabel : Val → String
  | .str s => s
  | .num q => toString q.num ++ "/" ++ toString q.den
  | .nan => "nan"

/-- Model of df.set_index(c): raises KeyError when c is not a column, else
relabels every row by its value in that column and removes the column. -/
def DF.setIndex (df : DF) (c : String) : Except Err DF :=
  match df.colIdx c with
  | none => .error .keyError
  | some j =>
      .ok ⟨df.cols.eraseIdx j,
           df.rows.map fun r => (valToLabel (r.2.getD j Val.nan), r.2.eraseIdx j)⟩

/-- Coercion of one cell by df.astype(float): string tokens must parse,
numbers and NaN pass through. -/
def Val.astype1 : Val → Except Err Val
  | .str s =>
      match parseFloat s with
      | some q => .ok (.num q)
      | none => .error .valueError
  | v => .ok v

/-- Coerce a list of cells, stopping at the first failure. -/
def astypeVals : List Val → Except Err (List Val)
  | [] => .ok []
  | v :: vs =>
      match v.astype1 with
      | .error e => .error e
      | .ok w =>
          match astypeVals vs with
          | .error e => .error e
          | .ok ws => .ok (w :: ws)

/-- Coerce every row of a table. -/
def astypeRows : List (String × List Val) → Except Err (List (String × List Val))
  | [] => .ok []
  | r :: rs =>
      match astypeVals r.2 with
      | .error e => .error e
      | .ok vs =>
          match astypeRows rs with
          | .error e => .error e
          | .ok rs' => .ok ((r.1, vs) :: rs')

/-- Model of df.astype(float): coerce every cell, raising ValueError on the
first token that is not a float literal. -/
def DF.astypeFloat (df : DF) : Except Err DF :=
  match astypeRows df.rows with
  | .error e => .error e
  | .ok rs => .ok ⟨df.cols, rs⟩

/-- Whether one cell can be coerced to float. -/
def Val.coercible : Val → Bool
  | .str s => (parseFloat s).isSome
  | _ => true

/-- Whether every cell of the table can be coerced to float. -/
def DF.coercible (df : DF) : Bool :=
  df.rows.all fun r => r.2.all Val.coercible

/-- Count of variable-table rows whose value column is positive and whose
rootredcostcall column equals the loop index i; the value of the pandas
filter-and-len expression when both columns exist (0 is a don't-care
placeholder for the missing-column case, where the script crashes instead). -/
def countPure (dfv : DF) (vc : String) (i : ℕ) : ℕ :=
  match dfv.colIdx vc, dfv.colIdx "rootredcostcall" with
  | some j1, some j2 =>
      (dfv.rows.filter fun r =>
        (r.2.getD j1 Val.nan).gtZero && (r.2.getD j2 Val.nan).eqIdx i).length
  | _, _ => 0

/-- Model of len(dfvar[(dfvar[vc] > 0) & (dfvar['rootredcostcall'] == i)]):
KeyError when either column is missing, else the filtered row count. -/
def DF.countWhere (dfv : DF) (vc : String) (i : ℕ) : Except Err ℕ :=
  match dfv.colIdx vc, dfv.colIdx "rootredcostcall" with
  | some _, some _ => .ok (countPure dfv vc i)
  | _, _ => .error .keyError

/-- Model of the script's per-iteration count loop
for i in range(n): df.set_value(str(i), tgt, len(dfvar[...])),
written so that iteration n-1 is performed last. -/
def countLoop (dfv : DF) (vc : String) (tgt : String) : ℕ → DF → Except Err DF
  | 0, df => .ok df
  | n + 1, df =>
      match countLoop dfv vc tgt n df with
      | .error e => .error e
      | .ok dfm =>
          match dfv.countWhere vc n with
          | .error e => .error e
          | .ok c => .ok (dfm.setValue (toString n) tgt (.num (Frac.ofNat c)))

/-- Maximum of a list of fractions under the cross-multiplication order. -/
def maxFrac? : List Frac → Option Frac
  | [] => none
  | x :: xs => some (xs.foldl (fun a b => if a.le b then b else a) x)

/-- Maximum of the numeric entries of column position j, skipping NaN as
pandas Series.max does; none when there is no numeric entry. -/
def DF.colMaxAt (df : DF) (j : ℕ) : Option Frac :=
  maxFrac? (df.rows.filterMap fun r =>
    match r.2.getD j Val.nan with
    | .num q => some q
    | _ => none)

/-- Pointwise effect of the sentinel normalization on one dual-bound cell:
numbers at or below -10^20 become NaN, everything else is unchanged. -/
def dbNorm : Val → Val
  | .num q => if q.le negInfty then Val.nan else Val.num q
  | v => v

/-- Model of df['db'][df['db'] <= -infty] = np.nan with infty = 10.0 ** 20:
KeyError when db is not a column, else replace every dual-bound entry at or
below the sentinel with NaN and keep all other entries unchanged. -/
def normalizeDb (df : DF) : Except Err DF :=
  match df.colIdx "db" with
  | none => .error .keyError
  | some j =>
      .ok ⟨df.cols, df.rows.map fun r => (r.1, r.2.set j (dbNorm (r.2.getD j Val.nan)))⟩

/-- Result of the finalize block (lines 110-209 of the script): the mutated
bounds and variable tables, whether a chart is emitted (false on the
empty-table silent skip), and the axis bounds handed to the renderer. -/
structure FinRes where
  df : DF
  dfvar : DF
  emit : Bool
  lpmax : Frac
  ipmax : Frac
  deriving DecidableEq, Repr

/-- Count phase of finalization (lines 116-124 of the script): attach the
nlpvars column as 0, run the first per-iteration set_value loop, attach the
nipvars column as 0, run the second loop; each loop ranges over the row
count at its start, the storage key is str(i). -/
def countPhase (dv df0 : DF) : Except Err DF :=
  match countLoop dv "rootlpsolval" "nlpvars"
      (df0.addColConst "nlpvars" (Val.num 0)).rows.length
      (df0.addColConst "nlpvars" (Val.num 0)) with
  | .error e => .error e
  | .ok dfB =>
      countLoop dv "solval" "nipvars"
        (dfB.addColConst "nipvars" (Val.num 0)).rows.length
        (dfB.addColConst "nipvars" (Val.num 0))

/-- Emit phase of finalization (lines 130-209 of the script): skip silently
on an empty bounds table, else coerce it, normalize sentinel dual bounds,
compute the scatter axis maxima, and require the plotted columns. -/
def emitPhase (dv dfD : DF) : Except Err FinRes :=
  if dfD.rows.isEmpty then .ok ⟨dfD, dv, false, 0, 0⟩
  else
  match dfD.astypeFloat with
  | .error e => .error e
  | .ok dfE =>
  match normalizeDb dfE with
  | .error e => .error e
  | .ok dfF =>
  match dfF.colIdx "nlpvars", dfF.colIdx "nipvars" with
  | some jlp, some jip =>
      let lpmax := (dfF.colMaxAt jlp).getD 0
      let ipmax := (dfF.colMaxAt jip).getD 0
      if "iter" ∈ dfF.cols ∧ "pb" ∈ dfF.cols ∧ "dualdiff" ∈ dfF.cols then
        .ok ⟨dfF, dv, true, lpmax, ipmax⟩
      else .error .keyError
  | _, _ => .error .keyError

/-- Model of the finalize block triggered by a Root node: line while variable
details are active: re-index the variable table by name, coerce it, run the
count phase, then the emit phase. -/
def finalize (df0 dfvar0 : DF) : Except Err FinRes :=
  match dfvar0.setIndex "name" with
  | .error e => .error e
  | .ok dv1 =>
  match dv1.astypeFloat with
  | .error e => .error e
  | .ok dv =>
  match countPhase dv df0 with
  | .error e => .error e
  | .ok dfD => emitPhase dv dfD

/-- Settings label derived from a loaded parameter file line: last
whitespace token, last path segment, extension stripped. -/
def settingsLabelOf (line : String) : String :=
  splitext0 ((pySplitOn ((pySplit line).getLastD "") '/').getLastD "")

/-- Instance name derived from the Problem name line inside the original
header: 4th whitespace token, last path segment; the script then inspects the
LAST CHARACTER of the final dot-suffix (tmp_name[-1] in Python, a one-char
string, so its comparisons against "gz" and "GZ" can never be true) and
strips two extensions when that character is z or Z, else one; raises
IndexError when the line has at most 3 tokens or the suffix is empty. -/
def extractInstanceName (line : String) : Except Err String :=
  match (pySplit line)[3]? with
  | none => .error .indexError
  | some raw =>
      let base := (pySplitOn raw '/').getLastD ""
      let tmp := (pySplitOn base '.').getLastD ""
      match tmp.data.getLast? with
      | none => .error .indexError
      | some c =>
          let cs : String := ⟨[c]⟩
          if cs = "gz" ∨ cs = "z" ∨ cs = "GZ" ∨ cs = "Z" then
            .ok (splitext0 (splitext0 base))
          else .ok (splitext0 base)

/-- Per-file parser state of generate_files: the two in-progress tables, the
original-header flag, the instance name, the two section-mode flags, the
settings label, and the chart files written so far. -/
structure St where
  df : DF
  dfvar : DF
  orig : Bool
  name : Option String
  rootbounds : Bool
  vardetails : Bool
  settings : String
  out : List String
  deriving DecidableEq, Repr

/-- Fresh per-file state, as set up at the top of the with-open block. -/
def St.init : St :=
  ⟨DF.emptyDF, DF.emptyDF, false, none, false, false, "default", []⟩

/-- Model of one iteration of the for line in file loop: the elif chain of
generate_files, in source order.  Errors are uncaught exceptions. -/
def processLine (outdir : String) (st : St) (line : String) : Except Err St :=
  if strStarts line "loaded parameter file" then
    .ok { st with settings := settingsLabelOf line }
  else if strStarts line "Original Program statistics:" then
    .ok { st with orig := true }
  else if strStarts line "Master Program statistics:" then
    .ok { st with orig := false }
  else if strStarts line "Presolved Problem  :" then
    .ok { st with orig := false }
  else if st.orig && strStarts line "  Problem name     :" then
    match extractInstanceName line with
    | .error e => .error e
    | .ok nm => .ok { st with name := some nm }
  else if strStarts line "Root bounds" then
    .ok { st with rootbounds := true }
  else if strStarts line "iter\tpb\tdb" && st.rootbounds then
    .ok { st with df := DF.withCols (pySplit line) }
  else if strStarts line "Pricing Summary:" && st.rootbounds then
    .ok { st with rootbounds := false }
  else if st.rootbounds then
    match pySplit line with
    | [] => .error .indexError
    | t0 :: ts =>
        match st.df.locSet t0 ((t0 :: ts).map Val.str) with
        | .error e => .error e
        | .ok d => .ok { st with df := d }
  else if strStarts line "AddedVarDetails:" then
    .ok { st with vardetails := true }
  else if strStarts line "VAR: name\tnode\ttime" && st.vardetails then
    .ok { st with dfvar := DF.withCols (pySplit line).tail }
  else if strStarts line "Root node:" && st.vardetails then
    match finalize st.df st.dfvar with
    | .error e => .error e
    | .ok r =>
        if r.emit then
          match st.name with
          | none => .error .typeError
          | some nm =>
              let fname := outdir ++ "/" ++ nm ++ "_" ++ st.settings ++ ".png"
              .ok { st with vardetails := false, df := r.df, dfvar := r.dfvar, out := st.out ++ [fname] }
        else
          .ok { st with vardetails := false, df := r.df, dfvar := r.dfvar }
  else if st.vardetails then
    match pySplit line with
    | _ :: t1 :: ts =>
        match st.dfvar.locSet t1 ((t1 :: ts).map Val.str) with
        | .error e => .error e
        | .ok d => .ok { st with dfvar := d }
    | _ => .error .indexError
  else .ok st

/-- Scan the lines of one file from a given state; an uncaught exception
aborts the scan. -/
def runLines (outdir : String) (st : St) : List String → Except Err St
  | [] => .ok st
  | l :: ls =>
      match processLine outdir st l with
      | .error e => .error e
      | .ok st' => runLines outdir st' ls

/-- Process one input file from a fresh state, returning the chart files it
wrote, or the uncaught exception that aborted the scan. -/
def processFile (outdir : String) (lines : List String) : Except Err (List String) :=
  match runLines outdir St.init lines with
  | .error e => .error e
  | .ok st => .ok st.out

/-- Model of generate_files over a list of input files (each a list of
lines): charts written in order, paired with the uncaught exception that
terminated the run, if any; files after a raising file are never opened. -/
def generate_files (outdir : String) : List (List String) → List String × Option Err
  | [] => ([], none)
  | f :: fs =>
      match processFile outdir f with
      | .error e => ([], some e)
      | .ok outs =>
          let r := generate_files outdir fs
          (outs ++ r.1, r.2)

/-- Trace predicate for one file: no line is a Root node: line arriving while
variable-details mode is active (the claim's notion of the finalize
trigger). -/
def noRootNodeWhileVD (outdir : String) (st : St) : List String → Bool
  | [] => true
  | l :: ls =>
      !(strStarts l "Root node:" && st.vardetails) &&
        (match processLine outdir st l with
         | .ok st' => noRootNodeWhileVD outdir st' ls
         | .error _ => true)

/-- Trace predicate for one file: no line is a Root bounds line arriving
while variable-details mode is active (the only way both mode flags can be
set at once). -/
def noRootBoundsWhileVD (outdir : String) (st : St) : List String → Bool
  | [] => true
  | l :: ls =>
      !(strStarts l "Root bounds" && st.vardetails) &&
        (match processLine outdir st l with
         | .ok st' => noRootBoundsWhileVD outdir st' ls
         | .error _ => true)

/-- Every parser state reached during the scan of a file (the state before
each line and the state after the last processed line; the scan stops at an
uncaught exception). -/
def scanStates (outdir : String) (st : St) : List String → List St
  | [] => [st]
  | l :: ls =>
      st :: (match processLine outdir st l with
             | .ok st' => scanStates outdir st' ls
             | .error _ => [])

/-- Whether the scan of a whole file from a fresh state raises no uncaught
exception. -/
def scanOk (outdir : String) (lines : List String) : Bool :=
  match runLines outdir St.init lines with
  | .ok _ => true
  | .error _ => false

/-- A complete well-formed input log: settings line, original header with
problem name, root-bounds section with two data rows, variable-details
section with one variable created at reduced-cost call 0 with positive root
LP solution value, and the finalize trigger. -/
def fileChart : List String :=
  ["loaded parameter file /a/configs/aggressive.set",
   "Original Program statistics:",
   "  Problem name     : /data/foo.mps.gz",
   "Master Program statistics:",
   "Root bounds",
   "iter\tpb\tdb\tdualdiff",
   "0 100 50 50",
   "1 90 60 30",
   "Pricing Summary:",
   "AddedVarDetails:",
   "VAR: name\tnode\ttime\trootredcostcall\trootlpsolval\tsolval",
   "VARDET x 1 0.5 0 1.0 0",
   "Root node:"]

/-- An input log with no finalize trigger whose scan nevertheless crashes:
the blank line is reached while root-bounds mode is active, and its empty
token list is indexed without a guard. -/
def fileNoTriggerCrash : List String :=
  ["Root bounds", "iter\tpb\tdb", ""]

/-- An input log with no finalize trigger whose scan succeeds. -/
def fileNoTrigger : List String :=
  ["Root bounds", "iter\tpb\tdb\tdualdiff", "0 1 2 3", "Pricing Summary:"]

/-- An input log whose root-bounds section holds a data row with a token
(abc) that cannot be coerced to float; the coercion failure surfaces at
finalize time. -/
def fileMalformed : List String :=
  ["Root bounds",
   "iter\tpb\tdb\tdualdiff",
   "0 abc 50 50",
   "Pricing Summary:",
   "AddedVarDetails:",
   "VAR: name\tnode\ttime\trootredcostcall\trootlpsolval\tsolval",
   "VARDET x 1 0.5 0 1.0 0",
   "Root node:"]

/-- A bounds table as built from the header iter pb db dualdiff and two data
rows with iteration tokens 0 and 1; the dual bound of row 0 carries the
sentinel value -2e20. -/
def dfC2 : DF :=
  ⟨["iter", "pb", "db", "dualdiff"],
   [("0", [.str "0", .str "100", .str "-2e20", .str "50"]),
    ("1", [.str "1", .str "90", .str "60", .str "30"])]⟩

/-- A variable table (pre set_index) with one variable created at
reduced-cost call 0 whose root LP solution value is positive. -/
def dvC2 : DF :=
  ⟨["name", "node", "time", "rootredcostcall", "rootlpsolval", "solval"],
   [("x", [.str "x", .str "1", .str "0.5", .str "0", .str "1.0", .str "0"])]⟩

/-- The variable table dvC2 after set_index(name): the name column becomes
the row label. -/
def dvC2_mid : DF :=
  ⟨["node", "time", "rootredcostcall", "rootlpsolval", "solval"],
   [("x", [.str "1", .str "0.5", .str "0", .str "1.0", .str "0"])]⟩

/-- The variable table dvC2 after set_index(name) and astype(float). -/
def dvC2_final : DF :=
  ⟨["node", "time", "rootredcostcall", "rootlpsolval", "solval"],
   [("x", [.num ⟨1, 1⟩, .num ⟨5, 10⟩, .num ⟨0, 1⟩, .num ⟨10, 10⟩, .num ⟨0, 1⟩])]⟩

/-- A bounds table with a single data row whose iteration token is 5 (so the
row label does not match its position 0). -/
def dfC1 : DF :=
  ⟨["iter", "pb", "db", "dualdiff"],
   [("5", [.str "5", .str "100", .str "50", .str "50"])]⟩

/-- Modelled from the spec: the instance-name extraction rule as the spec
words it (final path segment of the 4th whitespace token; strip two trailing
extensions when the first stripped extension is one of the case-insensitive
compression suffixes gz or z, written out as the case variants of those two
suffixes; otherwise strip exactly one extension); none when the line has
fewer than 4 tokens. -/
def specInstanceName (line : String) : Option String :=
  match (pySplit line)[3]? with
  | none => none
  | some raw =>
      let base := (pySplitOn raw '/').getLastD ""
      let ext := (pySplitOn base '.').getLastD ""
      if ext = "gz" ∨ ext = "gZ" ∨ ext = "Gz" ∨ ext = "GZ" ∨ ext = "z" ∨ ext = "Z" then
        some (splitext0 (splitext0 base))
      else some (splitext0 base)

/-- Amended instance-name rule: the script strips two trailing extensions
exactly when the final dot-suffix of the base name is nonempty and its last
character is z or Z (so any suffix ending in z, such as xz or bz, triggers
the double strip), and one extension otherwise; at most 3 tokens or an empty
final suffix raise IndexError. -/
def amendedInstanceName (line : String) : Except Err String :=
  match (pySplit line)[3]? with
  | none => .error .indexError
  | some raw =>
      let base := (pySplitOn raw '/').getLastD ""
      let tmp := (pySplitOn base '.').getLastD ""
      match tmp.data.getLast? with
      | none => .error .indexError
      | some c =>
          if c = 'z' ∨ c = 'Z' then .ok (splitext0 (splitext0 base))
          else .ok (splitext0 base)

/-- One-character strings are equal exactly when their characters are; used
to discharge the dead comparisons of tmp_name[-1] against two-character
suffixes. -/
theorem singleton_str_eq (c d : Char) : (String.mk [c] = String.mk [d]) ↔ c = d := by
  constructor
  · intro h
    have h2 := congrArg String.data h
    simpa using h2
  · intro h; rw [h]

/-- Claim C4 is refuted at the concrete Problem-name line for
/data/foo.tar.xz: the code strips two extensions (because the final
extension ends in the character z) and yields foo, while the claimed rule
strips exactly one (xz is not gz or z) and yields foo.tar. -/
theorem c4_counterexample :
    extractInstanceName "  Problem name     : /data/foo.tar.xz" = .ok "foo" ∧
    specInstanceName "  Problem name     : /data/foo.tar.xz" = some "foo.tar" ∧
    ("foo" : String) ≠ "foo.tar" := by
  refine ⟨by decide, by decide, by decide⟩

/-- Claim C4 amended: the instance name derived by the code agrees, on every
line, with the rule that strips two trailing extensions exactly when the
final dot-suffix ends in the character z or Z and one extension otherwise
(yielding foo both for /data/foo.mps.gz and for /data/foo.lp). -/
theorem c4_amended_extraction (line : String) :
    extractInstanceName line = amendedInstanceName line := by
  unfold extractInstanceName amendedInstanceName
  cases h3 : (pySplit line)[3]? with
  | none => rfl
  | some raw =>
      simp only []
      cases hc : (pySplitOn ((pySplitOn raw '/').getLastD "") '.').getLastD "" |>.data.getLast? with
      | none => rfl
      | some c =>
          simp only []
          have hcond : ((String.mk [c] = "gz" ∨ String.mk [c] = "z" ∨
              String.mk [c] = "GZ" ∨ String.mk [c] = "Z")) ↔ (c = 'z' ∨ c = 'Z') := by
            constructor
            · rintro (h | h | h | h)
              · exact absurd (congrArg String.data h) (by simp)
              · exact Or.inl ((singleton_str_eq c 'z').mp h)
              · exact absurd (congrArg String.data h) (by simp)
              · exact Or.inr ((singleton_str_eq c 'Z').mp h)
            · rintro (h | h)
              · exact Or.inr (Or.inl ((singleton_str_eq c 'z').mpr h))
              · exact Or.inr (Or.inr (Or.inr ((singleton_str_eq c 'Z').mpr h)))
          rw [if_congr hcond rfl rfl]

/-- Finalization with no name column in the variable table (no VAR header
line was ever seen) raises KeyError at the set_index call, before any guard
could run. -/
theorem finalize_noName (df dfvar : DF) (h : dfvar.colIdx "name" = none) :
    finalize df dfvar = .error .keyError := by
  unfold finalize DF.setIndex
  rw [h]

/-- Claim C10: while a data-collecting mode is active, data lines are
tokenized and indexed without any guard: a line with zero whitespace tokens
in root-bounds mode, and a line with fewer than two tokens in
variable-details mode, raise an uncaught IndexError; the error propagates
through the scan and terminates the whole run. -/
theorem c10_unguarded_indexing :
    (∀ outdir st, st.rootbounds = true →
       processLine outdir st "" = .error .indexError) ∧
    (∀ outdir st, st.rootbounds = false → st.vardetails = true →
       processLine outdir st "x" = .error .indexError) ∧
    (∀ outdir st rest, st.rootbounds = true →
       runLines outdir st ("" :: rest) = .error .indexError) ∧
    (∀ outdir files, generate_files outdir (["Root bounds", ""] :: files) =
       ([], some .indexError)) := by
  have h1 : ∀ outdir st, st.rootbounds = true →
      processLine outdir st "" = .error .indexError := by
    intro outdir st h
    obtain ⟨df, dfvar, orig, nm, rb, vd, sett, out⟩ := st
    cases h
    cases orig <;> rfl
  have h2 : ∀ outdir st, st.rootbounds = false → st.vardetails = true →
      processLine outdir st "x" = .error .indexError := by
    intro outdir st h h'
    obtain ⟨df, dfvar, orig, nm, rb, vd, sett, out⟩ := st
    cases h
    cases h'
    cases orig <;> rfl
  refine ⟨h1, h2, ?_, ?_⟩
  · intro outdir st rest h
    show (match processLine outdir st "" with
          | Except.error e => Except.error e
          | Except.ok st' => runLines outdir st' rest) = Except.error Err.indexError
    rw [h1 outdir st h]
  · intro outdir files
    rfl

/-- Claim C9: a Root node: line reached while variable details are active
but before any VAR header set the variable-table schema makes finalization
raise an uncaught KeyError when re-indexing by name, and the error
terminates the entire run; nothing ever checks this precondition. -/
theorem c9_missing_schema_crash :
    (∀ outdir st, st.vardetails = true → st.rootbounds = false →
       st.dfvar.colIdx "name" = none →
       processLine outdir st "Root node:" = .error .keyError) ∧
    (∀ outdir files, generate_files outdir (["AddedVarDetails:", "Root node:"] :: files) =
       ([], some .keyError)) := by
  constructor
  · intro outdir st hvd hrb hname
    obtain ⟨df, dfvar, orig, nm, rb, vd, sett, out⟩ := st
    cases hvd
    cases hrb
    have hfin := finalize_noName df dfvar hname
    cases orig <;>
      · show (match finalize df dfvar with
              | Except.error e => (Except.error e : Except Err St)
              | Except.ok r => _) = Except.error Err.keyError
        rw [hfin]
  · intro outdir files
    rfl

/-- Case analysis of one elif-chain step: the settings label changes only on
a loaded-parameter-file line; the written-chart list changes only on a Root
node: line seen while variable details are active; and the two mode flags can
become simultaneously true only through a Root bounds line seen while
variable details are active. -/
theorem processLine_ok_fields (outdir : String) (st : St) (line : String) (st' : St)
    (h : processLine outdir st line = .ok st') :
    (st'.settings = st.settings ∨ strStarts line "loaded parameter file" = true) ∧
    (st'.out = st.out ∨ (strStarts line "Root node:" = true ∧ st.vardetails = true)) ∧
    ((st.rootbounds && st.vardetails) = false →
      (strStarts line "Root bounds" && st.vardetails) = false →
      (st'.rootbounds && st'.vardetails) = false) := by
  unfold processLine at h
  by_cases c1 : strStarts line "loaded parameter file" = true
  · rw [if_pos c1] at h
    injection h with h; subst h
    exact ⟨Or.inr c1, Or.inl rfl, fun h1 _ => h1⟩
  rw [if_neg c1] at h
  by_cases c2 : strStarts line "Original Program statistics:" = true
  · rw [if_pos c2] at h
    injection h with h; subst h
    exact ⟨Or.inl rfl, Or.inl rfl, fun h1 _ => h1⟩
  rw [if_neg c2] at h
  by_cases c3 : strStarts line "Master Program statistics:" = true
  · rw [if_pos c3] at h
    injection h with h; subst h
    exact ⟨Or.inl rfl, Or.inl rfl, fun h1 _ => h1⟩
  rw [if_neg c3] at h
  by_cases c4 : strStarts line "Presolved Problem  :" = true
  · rw [if_pos c4] at h
    injection h with h; subst h
    exact ⟨Or.inl rfl, Or.inl rfl, fun h1 _ => h1⟩
  rw [if_neg c4] at h
  by_cases c5 : (st.orig && strStarts line "  Problem name     :") = true
  · rw [if_pos c5] at h
    split at h
    · exact Except.noConfusion h
    · injection h with h; subst h
      exact ⟨Or.inl rfl, Or.inl rfl, fun h1 _ => h1⟩
  rw [if_neg c5] at h
  by_cases c6 : strStarts line "Root bounds" = true
  · rw [if_pos c6] at h
    injection h with h; subst h
    refine ⟨Or.inl rfl, Or.inl rfl, fun _ h2 => ?_⟩
    rw [c6] at h2
    simpa using h2
  rw [if_neg c6] at h
  by_cases c7 : (strStarts line "iter\tpb\tdb" && st.rootbounds) = true
  · rw [if_pos c7] at h
    injection h with h; subst h
    exact ⟨Or.inl rfl, Or.inl rfl, fun h1 _ => h1⟩
  rw [if_neg c7] at h
  by_cases c8 : (strStarts line "Pricing Summary:" && st.rootbounds) = true
  · rw [if_pos c8] at h
    injection h with h; subst h
    exact ⟨Or.inl rfl, Or.inl rfl, fun _ _ => by simp⟩
  rw [if_neg c8] at h
  by_cases c9 : st.rootbounds = true
  · rw [if_pos c9] at h
    split at h
    · exact Except.noConfusion h
    · split at h
      · exact Except.noConfusion h
      · injection h with h; subst h
        exact ⟨Or.inl rfl, Or.inl rfl, fun h1 _ => h1⟩
  rw [if_neg c9] at h
  by_cases c10 : strStarts line "AddedVarDetails:" = true
  · rw [if_pos c10] at h
    injection h with h; subst h
    refine ⟨Or.inl rfl, Or.inl rfl, fun _ _ => ?_⟩
    cases hb : st.rootbounds with
    | false => rfl
    | true => exact absurd hb c9
  rw [if_neg c10] at h
  by_cases c11 : (strStarts line "VAR: name\tnode\ttime" && st.vardetails) = true
  · rw [if_pos c11] at h
    injection h with h; subst h
    exact ⟨Or.inl rfl, Or.inl rfl, fun h1 _ => h1⟩
  rw [if_neg c11] at h
  by_cases c12 : (strStarts line "Root node:" && st.vardetails) = true
  · rw [if_pos c12] at h
    split at h
    · exact Except.noConfusion h
    · split at h
      · split at h
        · exact Except.noConfusion h
        · injection h with h; subst h
          exact ⟨Or.inl rfl, Or.inr ((Bool.and_eq_true _ _).mp c12), fun _ _ => by simp⟩
      · injection h with h; subst h
        exact ⟨Or.inl rfl, Or.inl rfl, fun _ _ => by simp⟩
  rw [if_neg c12] at h
  by_cases c13 : st.vardetails = true
  · rw [if_pos c13] at h
    split at h
    · split at h
      · exact Except.noConfusion h
      · injection h with h; subst h
        exact ⟨Or.inl rfl, Or.inl rfl, fun h1 _ => h1⟩
    · exact Except.noConfusion h
  rw [if_neg c13] at h
  injection h with h; subst h
  exact ⟨Or.inl rfl, Or.inl rfl, fun h1 _ => h1⟩

/-- Scanning a file whose lines never match the settings marker leaves the
settings label of the starting state untouched. -/
theorem runLines_settings (outdir : String) (lines : List String) :
    ∀ st st', (lines.all fun l => !(strStarts l "loaded parameter file")) = true →
      runLines outdir st lines = .ok st' → st'.settings = st.settings := by
  induction lines with
  | nil =>
      intro st st' _ h
      injection h with h
      subst h
      rfl
  | cons l ls ih =>
      intro st st' hall hrun
      rw [List.all_cons] at hall
      obtain ⟨h1, h2⟩ := (Bool.and_eq_true _ _).mp hall
      unfold runLines at hrun
      cases hp : processLine outdir st l with
      | error e => rw [hp] at hrun; exact Except.noConfusion hrun
      | ok st1 =>
          rw [hp] at hrun
          have hset := (processLine_ok_fields outdir st l st1 hp).1
          rcases hset with hset | hset
          · rw [ih st1 st' h2 hrun, hset]
          · rw [Bool.not_eq_true'] at h1
            rw [h1] at hset
            exact Bool.noConfusion hset

/-- Scanning a file in which no Root node: line arrives while variable
details are active leaves the written-chart list untouched. -/
theorem runLines_out (outdir : String) (lines : List String) :
    ∀ st st', noRootNodeWhileVD outdir st lines = true →
      runLines outdir st lines = .ok st' → st'.out = st.out := by
  induction lines with
  | nil =>
      intro st st' _ h
      injection h with h
      subst h
      rfl
  | cons l ls ih =>
      intro st st' hnt hrun
      unfold noRootNodeWhileVD at hnt
      obtain ⟨h1, h2⟩ := (Bool.and_eq_true _ _).mp hnt
      unfold runLines at hrun
      cases hp : processLine outdir st l with
      | error e => rw [hp] at hrun; exact Except.noConfusion hrun
      | ok st1 =>
          rw [hp] at hrun
          rw [hp] at h2
          have hout := (processLine_ok_fields outdir st l st1 hp).2.1
          rcases hout with hout | hout
          · rw [ih st1 st' h2 hrun, hout]
          · rw [Bool.not_eq_true'] at h1
            rw [hout.1, hout.2] at h1
            exact Bool.noConfusion h1

/-- Mode-flag exclusion is preserved along any scan in which no Root bounds
line arrives while variable details are active. -/
theorem scan_flags (outdir : String) (lines : List String) :
    ∀ st st', (st.rootbounds && st.vardetails) = false →
      noRootBoundsWhileVD outdir st lines = true →
      st' ∈ scanStates outdir st lines →
      (st'.rootbounds && st'.vardetails) = false := by
  induction lines with
  | nil =>
      intro st st' hflag _ hmem
      rw [scanStates, List.mem_singleton] at hmem
      rw [hmem]
      exact hflag
  | cons l ls ih =>
      intro st st' hflag hnt hmem
      unfold noRootBoundsWhileVD at hnt
      obtain ⟨h1, h2⟩ := (Bool.and_eq_true _ _).mp hnt
      unfold scanStates at hmem
      rw [List.mem_cons] at hmem
      rcases hmem with hmem | hmem
      · rw [hmem]; exact hflag
      · cases hp : processLine outdir st l with
        | error e =>
            rw [hp] at hmem
            exact absurd hmem (List.not_mem_nil st')
        | ok st1 =>
            rw [hp] at hmem h2
            refine ih st1 st' ?_ h2 hmem
            have := (processLine_ok_fields outdir st l st1 hp).2.2
            rw [Bool.not_eq_true'] at h1
            exact this hflag h1

/-- Claim C7: a loaded-parameter-file line always takes the settings branch,
setting the label to the last token's final path segment with its extension
stripped (aggressive.set yields aggressive); when no such line occurs in the
file the label keeps the fixed literal default of the fresh per-file
state. -/
theorem c7_settings_label :
    (∀ outdir st line, strStarts line "loaded parameter file" = true →
       processLine outdir st line = .ok { st with settings := settingsLabelOf line }) ∧
    settingsLabelOf "loaded parameter file /a/configs/aggressive.set" = "aggressive" ∧
    St.init.settings = "default" ∧
    (∀ outdir lines st',
       (lines.all fun l => !(strStarts l "loaded parameter file")) = true →
       runLines outdir St.init lines = .ok st' → st'.settings = "default") := by
  refine ⟨?_, by decide, rfl, ?_⟩
  · intro outdir st line hc
    unfold processLine
    rw [if_pos hc]
  · intro outdir lines st' hall hrun
    exact runLines_settings outdir lines St.init st' hall hrun

/-- Witness for claim C7 at concrete inputs: the settings line of fileChart
sets the label aggressive, and a file with no settings line keeps
default. -/
theorem c7_witness :
    processLine "plots" St.init "loaded parameter file /a/configs/aggressive.set" =
      .ok { St.init with settings := "aggressive" } ∧
    (∃ st', runLines "plots" St.init ["Root bounds"] = .ok st' ∧ st'.settings = "default") := by
  constructor
  · have h := c7_settings_label.1 "plots" St.init
      "loaded parameter file /a/configs/aggressive.set" (by decide)
    rw [h, c7_settings_label.2.1]
  · refine ⟨{ St.init with rootbounds := true }, by decide, ?_⟩
    exact c7_settings_label.2.2.2 "plots" ["Root bounds"] _ (by decide) (by decide)

/-- Claim C8 is refuted on the two-line file AddedVarDetails: then Root
bounds: the flag pairs reached during the scan are (false, false),
(false, true) and finally (true, true): both mode flags are simultaneously
true, because the Root bounds branch carries no variable-details guard. -/
theorem c8_counterexample :
    ((scanStates "plots" St.init ["AddedVarDetails:", "Root bounds"]).map
      fun s => (s.rootbounds, s.vardetails)) =
      [(false, false), (false, true), (true, true)] := by decide

/-- Claim C8 amended: at most one of the two mode flags is active at every
point of the scan, provided no Root bounds line arrives while
variable-details mode is active (the single transition that sets both). -/
theorem c8_amended_exclusion (outdir : String) (lines : List String) (st' : St)
    (h1 : noRootBoundsWhileVD outdir St.init lines = true)
    (h2 : st' ∈ scanStates outdir St.init lines) :
    (st'.rootbounds && st'.vardetails) = false :=
  scan_flags outdir lines St.init st' rfl h1 h2

/-- Witness for the amended C8 on a concrete scan that enters
variable-details mode. -/
theorem c8_witness :
    (({ St.init with vardetails := true } : St).rootbounds &&
      ({ St.init with vardetails := true } : St).vardetails) = false :=
  c8_amended_exclusion "plots" ["AddedVarDetails:", "Root node:"]
    { St.init with vardetails := true } (by decide) (by decide)

/-- Claim C5 is refuted: fileNoTriggerCrash never reaches a Root node: line
while variable details are active, yet it halts the whole run with an
uncaught IndexError, and the following file (which on its own produces a
chart) is never processed. -/
theorem c5_counterexample :
    noRootNodeWhileVD "plots" St.init fileNoTriggerCrash = true ∧
    generate_files "plots" [fileNoTriggerCrash, fileChart] = ([], some .indexError) ∧
    generate_files "plots" [fileChart] = (["plots/foo_aggressive.png"], none) := by
  refine ⟨by decide, by decide, by decide⟩

/-- Claim C5 amended: for a file in which no Root node: line arrives while
variable details are active and whose scan raises no uncaught exception, no
finalization occurs, the file contributes no chart, and the run continues
with the remaining files exactly as if the file were absent. -/
theorem c5_amended_no_trigger (outdir : String) (lines : List String)
    (h1 : noRootNodeWhileVD outdir St.init lines = true)
    (h2 : scanOk outdir lines = true) :
    processFile outdir lines = .ok [] ∧
    ∀ rest, generate_files outdir (lines :: rest) = generate_files outdir rest := by
  cases hr : runLines outdir St.init lines with
  | error e =>
      unfold scanOk at h2
      rw [hr] at h2
      exact Bool.noConfusion h2
  | ok st' =>
      have hout : st'.out = St.init.out := runLines_out outdir lines St.init st' h1 hr
      have hpf : processFile outdir lines = .ok [] := by
        unfold processFile
        rw [hr]
        show Except.ok st'.out = Except.ok ([] : List String)
        rw [hout]
        rfl
      refine ⟨hpf, fun rest => ?_⟩
      simp only [generate_files, hpf, List.nil_append]

/-- Witness for the amended C5 at the concrete trigger-free log
fileNoTrigger. -/
theorem c5_witness :
    processFile "plots" fileNoTrigger = .ok [] ∧
    generate_files "plots" [fileNoTrigger] = generate_files "plots" [] := by
  have h := c5_amended_no_trigger "plots" fileNoTrigger (by decide) (by decide)
  exact ⟨h.1, h.2 []⟩

/-- Claim C3 is refuted: the data row 0 abc 50 50 of fileMalformed fails
numeric coercion at finalize time, and instead of aborting only this file's
chart, the uncaught ValueError terminates the whole run: the following
file, which on its own produces a chart, is never processed. -/
theorem c3_counterexample :
    generate_files "plots" [fileMalformed, fileChart] = ([], some .valueError) ∧
    generate_files "plots" [fileChart] = (["plots/foo_aggressive.png"], none) := by
  refine ⟨by decide, by decide⟩

/-- Claim C3 amended: a data row whose tokens fail numeric coercion raises
an uncaught ValueError when finalization coerces the table, and any uncaught
per-file exception is fatal to the whole run: no later file is processed. -/
theorem c3_amended_run_fatal :
    processFile "plots" fileMalformed = .error .valueError ∧
    (∀ outdir f rest e, processFile outdir f = .error e →
       generate_files outdir (f :: rest) = ([], some e)) := by
  refine ⟨by decide, ?_⟩
  intro outdir f rest e h
  simp only [generate_files, h]

/-- Witness for the amended C3: the malformed file halts a two-file run. -/
theorem c3_witness :
    generate_files "plots" (fileMalformed :: [fileChart]) = ([], some .valueError) :=
  c3_amended_run_fatal.2 "plots" fileMalformed [fileChart] .valueError
    (c3_amended_run_fatal.1)

/-- Removing one position from a list preserves an all-predicate. -/
theorem all_eraseIdx {p : Val → Bool} (l : List Val) (j : ℕ) (h : l.all p = true) :
    (l.eraseIdx j).all p = true := by
  rw [List.all_eq_true] at h ⊢
  intro x hx
  exact h x ((List.eraseIdx_sublist l j).mem hx)

/-- Re-indexing by a column preserves coercibility of the remaining cells. -/
theorem coercible_setIndex (df df' : DF) (c : String) (hco : df.coercible = true)
    (h : df.setIndex c = .ok df') : df'.coercible = true := by
  unfold DF.setIndex at h
  cases hj : df.colIdx c with
  | none => rw [hj] at h; exact Except.noConfusion h
  | some j =>
      rw [hj] at h
      injection h with h
      subst h
      unfold DF.coercible at hco ⊢
      rw [List.all_eq_true] at hco ⊢
      intro r hr
      simp only [List.mem_map] at hr
      obtain ⟨r0, hr0, hr0e⟩ := hr
      subst hr0e
      exact all_eraseIdx r0.2 j (hco r0 hr0)

/-- Coercing a list of coercible cells succeeds. -/
theorem astypeVals_ok_of_all (l : List Val) (h : l.all Val.coercible = true) :
    ∃ l', astypeVals l = .ok l' := by
  induction l with
  | nil => exact ⟨[], rfl⟩
  | cons v vs ih =>
      rw [List.all_cons] at h
      obtain ⟨h1, h2⟩ := (Bool.and_eq_true _ _).mp h
      obtain ⟨l', hl'⟩ := ih h2
      unfold astypeVals
      cases v with
      | str s =>
          simp only [Val.coercible] at h1
          cases hp : parseFloat s with
          | none => rw [hp] at h1; exact Bool.noConfusion h1
          | some q =>
              refine ⟨.num q :: l', ?_⟩
              simp only [Val.astype1, hp, hl']
      | num q => exact ⟨.num q :: l', by simp only [Val.astype1, hl']⟩
      | nan => exact ⟨.nan :: l', by simp only [Val.astype1, hl']⟩

/-- Coercing a list of coercible rows succeeds. -/
theorem astypeRows_ok_of_all (rs : List (String × List Val))
    (h : (rs.all fun r => r.2.all Val.coercible) = true) :
    ∃ rs', astypeRows rs = .ok rs' := by
  induction rs with
  | nil => exact ⟨[], rfl⟩
  | cons r rs ih =>
      rw [List.all_cons] at h
      obtain ⟨h1, h2⟩ := (Bool.and_eq_true _ _).mp h
      obtain ⟨rs', hrs'⟩ := ih h2
      obtain ⟨l', hl'⟩ := astypeVals_ok_of_all r.2 h1
      refine ⟨(r.1, l') :: rs', ?_⟩
      unfold astypeRows
      rw [hl', hrs']

/-- Coercing a fully coercible table succeeds. -/
theorem astype_ok_of_coercible (df : DF) (h : df.coercible = true) :
    ∃ df', df.astypeFloat = .ok df' := by
  unfold DF.coercible at h
  unfold DF.astypeFloat
  obtain ⟨rs', hrs'⟩ := astypeRows_ok_of_all df.rows h
  exact ⟨⟨df.cols, rs'⟩, by rw [hrs']⟩

/-- Adding a constant column to a rowless table keeps it rowless. -/
theorem addColConst_rows_nil (d : DF) (c : String) (v : Val) (hd : d.rows = []) :
    (d.addColConst c v).rows = [] := by
  unfold DF.addColConst
  cases d.colIdx c <;> simp [hd]

/-- Finalization on an empty bounds table with a schema-bearing, coercible
variable table is a silent skip: no error, no chart emitted, the count
columns are still attached to the (empty) bounds table. -/
theorem finalize_empty (df dfvar : DF) (hrows : df.rows = [])
    (hname : (dfvar.colIdx "name").isSome = true) (hco : dfvar.coercible = true) :
    ∃ dv, finalize df dfvar =
      .ok ⟨(df.addColConst "nlpvars" (Val.num 0)).addColConst "nipvars" (Val.num 0),
           dv, false, 0, 0⟩ := by
  cases hj : dfvar.colIdx "name" with
  | none => rw [hj] at hname; exact Bool.noConfusion hname
  | some j =>
      have hset : dfvar.setIndex "name" =
          .ok ⟨dfvar.cols.eraseIdx j,
               dfvar.rows.map fun r => (valToLabel (r.2.getD j Val.nan), r.2.eraseIdx j)⟩ := by
        unfold DF.setIndex
        rw [hj]
      obtain ⟨dv, hdv⟩ := astype_ok_of_coercible _
        (coercible_setIndex dfvar _ "name" hco hset)
      refine ⟨dv, ?_⟩
      have hA : (df.addColConst "nlpvars" (Val.num 0)).rows = [] :=
        addColConst_rows_nil df _ _ hrows
      have hC : ((df.addColConst "nlpvars" (Val.num 0)).addColConst "nipvars" (Val.num 0)).rows
          = [] := addColConst_rows_nil _ _ _ hA
      simp only [finalize, countPhase, emitPhase, hset, hdv, hA, hC, List.length_nil,
        countLoop, List.isEmpty_nil, if_true]

/-- Dispatch of the line Root node: while variable details are active and
root bounds are not: the elif chain reaches the finalize branch. -/
theorem processLine_rootnode (outdir : String) (st : St)
    (hvd : st.vardetails = true) (hrb : st.rootbounds = false) :
    processLine outdir st "Root node:" =
      match finalize st.df st.dfvar with
      | .error e => .error e
      | .ok r =>
          if r.emit then
            match st.name with
            | none => .error .typeError
            | some nm =>
                let fname := outdir ++ "/" ++ nm ++ "_" ++ st.settings ++ ".png"
                .ok { st with vardetails := false, df := r.df, dfvar := r.dfvar, out := st.out ++ [fname] }
          else .ok { st with vardetails := false, df := r.df, dfvar := r.dfvar } := by
  unfold processLine
  rw [if_neg (by decide), if_neg (by decide), if_neg (by decide), if_neg (by decide)]
  rw [if_neg (fun hc => by
    rw [show strStarts "Root node:" "  Problem name     :" = false from rfl,
      Bool.and_false] at hc
    exact Bool.noConfusion hc)]
  rw [if_neg (by decide)]
  rw [if_neg (fun hc => by
    rw [show strStarts "Root node:" "iter\tpb\tdb" = false from rfl,
      Bool.false_and] at hc
    exact Bool.noConfusion hc)]
  rw [if_neg (fun hc => by
    rw [show strStarts "Root node:" "Pricing Summary:" = false from rfl,
      Bool.false_and] at hc
    exact Bool.noConfusion hc)]
  rw [if_neg (fun hc => by rw [hrb] at hc; exact Bool.noConfusion hc)]
  rw [if_neg (by decide)]
  rw [if_neg (fun hc => by
    rw [show strStarts "Root node:" "VAR: name\tnode\ttime" = false from rfl,
      Bool.false_and] at hc
    exact Bool.noConfusion hc)]
  rw [if_pos (by
    rw [show strStarts "Root node:" "Root node:" = true from rfl, hvd]
    rfl)]

/-- Claim C6: when finalization is triggered with an empty bounds table (and
a variable table that carries a name column and coercible cells, without
which finalization crashes before reaching the empty check), chart
generation is silently skipped: no image is produced, no error is raised,
and the scan continues on the remaining lines from the post-skip state. -/
theorem c6_empty_bounds_skip (outdir : String) (st : St)
    (hvd : st.vardetails = true) (hrb : st.rootbounds = false)
    (hempty : st.df.rows = [])
    (hname : (st.dfvar.colIdx "name").isSome = true)
    (hco : st.dfvar.coercible = true) :
    ∃ st', processLine outdir st "Root node:" = .ok st' ∧ st'.out = st.out ∧
      st'.vardetails = false ∧
      ∀ rest, runLines outdir st ("Root node:" :: rest) = runLines outdir st' rest := by
  obtain ⟨dv, hfin⟩ := finalize_empty st.df st.dfvar hempty hname hco
  have hpl : processLine outdir st "Root node:" =
      .ok { st with vardetails := false, df := (st.df.addColConst "nlpvars" (Val.num 0)).addColConst "nipvars" (Val.num 0), dfvar := dv } := by
    rw [processLine_rootnode outdir st hvd hrb, hfin]
    rfl
  refine ⟨_, hpl, rfl, rfl, fun rest => ?_⟩
  show (match processLine outdir st "Root node:" with
        | Except.error e => (Except.error e : Except Err St)
        | Except.ok st1 => runLines outdir st1 rest) = _
  rw [hpl]

/-- Witness for claim C6: a state with an empty bounds table and a
schema-only variable table is skipped without error or output. -/
theorem c6_witness :
    ∃ st', processLine "plots"
        { St.init with vardetails := true, dfvar := DF.withCols ["name", "node"] }
        "Root node:" = .ok st' ∧ st'.out = [] := by
  obtain ⟨st', h1, h2, _, _⟩ := c6_empty_bounds_skip "plots"
    { St.init with vardetails := true, dfvar := DF.withCols ["name", "node"] }
    rfl rfl rfl (by decide) (by decide)
  exact ⟨st', h1, h2⟩

/-- Witness for claim C10 at concrete states: a blank line in root-bounds
mode and a one-token line in variable-details mode both raise IndexError. -/
theorem c10_witness :
    processLine "plots" { St.init with rootbounds := true } "" = .error .indexError ∧
    processLine "plots" { St.init with vardetails := true } "x" = .error .indexError :=
  ⟨c10_unguarded_indexing.1 "plots" { St.init with rootbounds := true } rfl,
   c10_unguarded_indexing.2.1 "plots" { St.init with vardetails := true } rfl rfl⟩

/-- Witness for claim C9 at a concrete state whose variable table never got
a schema. -/
theorem c9_witness :
    processLine "plots" { St.init with vardetails := true } "Root node:" = .error .keyError :=
  c9_missing_schema_crash.1 "plots" { St.init with vardetails := true } rfl rfl rfl

/-- Membership extracted from positional access. -/
theorem mem_of_getElem? {α : Type} {l : List α} {i : ℕ} {a : α} (h : l[i]? = some a) :
    a ∈ l := by
  obtain ⟨hlt, he⟩ := List.getElem?_eq_some.mp h
  exact he ▸ List.getElem_mem hlt

/-- Name-based cell access through the column position. -/
theorem cell_eq_entry (df : DF) (i : ℕ) (c : String) (j : ℕ)
    (h : df.colIdx c = some j) : df.cell i c = df.entry i j := by
  unfold DF.cell DF.entry
  rw [h]

/-- A found column index is inside the schema. -/
theorem colIdx_lt (df : DF) (c : String) (j : ℕ) (h : df.colIdx c = some j) :
    j < df.cols.length := by
  unfold DF.colIdx at h
  rw [List.findIdx?_eq_some_iff_getElem] at h
  obtain ⟨hj, -, -⟩ := h
  exact hj

/-- The schema entry at a found column index is the column name. -/
theorem colIdx_name (df : DF) (c : String) (j : ℕ) (h : df.colIdx c = some j) :
    df.cols[j]? = some c := by
  unfold DF.colIdx at h
  rw [List.findIdx?_eq_some_iff_getElem] at h
  obtain ⟨hj, hp, -⟩ := h
  rw [List.getElem?_eq_getElem hj]
  exact congrArg some (of_decide_eq_true hp)

/-- Column lookup fails exactly on absent names. -/
theorem colIdx_eq_none (df : DF) (c : String) : df.colIdx c = none ↔ c ∉ df.cols := by
  unfold DF.colIdx
  rw [List.findIdx?_eq_none_iff]
  constructor
  · intro h hc
    have := h c hc
    simp at this
  · intro h x hx
    simp only [decide_eq_false_iff_not]
    intro he
    exact h (he ▸ hx)

/-- Column lookup in a schema extended on the right is unchanged for names
it already resolves. -/
theorem colIdx_append (df : DF) (c x : String) (j : ℕ) (h : df.colIdx c = some j)
    (rows' : List (String × List Val)) :
    (DF.mk (df.cols ++ [x]) rows').colIdx c = some j := by
  unfold DF.colIdx at h ⊢
  rw [List.findIdx?_append, h]
  rfl

/-- Looking up a freshly appended column name lands on the old schema
length. -/
theorem colIdx_append_self (df : DF) (x : String) (h : df.colIdx x = none)
    (rows' : List (String × List Val)) :
    (DF.mk (df.cols ++ [x]) rows').colIdx x = some df.cols.length := by
  unfold DF.colIdx at h ⊢
  rw [List.findIdx?_append, h]
  simp [List.findIdx?_cons]

/-- Effect of attaching a fresh constant column: the schema grows on the
right, rows keep their labels and old values, and every row carries v at the
new position. -/
theorem addColConst_new (df : DF) (col : String) (v : Val)
    (hcol : df.colIdx col = none) :
    (df.addColConst col v).cols = df.cols ++ [col] ∧
    (df.addColConst col v).rows.length = df.rows.length ∧
    (df.addColConst col v).labels = df.labels ∧
    (df.WF → ∀ i j, j < df.cols.length → (df.addColConst col v).entry i j = df.entry i j) ∧
    (df.WF → ∀ i, i < df.rows.length →
      (df.addColConst col v).entry i df.cols.length = some v) ∧
    (df.WF → (df.addColConst col v).WF) := by
  have he : df.addColConst col v =
      ⟨df.cols ++ [col], df.rows.map fun r => (r.1, r.2 ++ [v])⟩ := by
    unfold DF.addColConst
    rw [hcol]
  rw [he]
  refine ⟨rfl, List.length_map _ _, ?_, ?_, ?_, ?_⟩
  · simp [DF.labels, List.map_map, Function.comp]
  · intro hwf i j hj
    unfold DF.entry
    rw [List.getElem?_map]
    cases hri : df.rows[i]? with
    | none => rfl
    | some ri =>
        simp only [Option.map_some']
        have hjr : j < ri.2.length := by
          rw [hwf ri (mem_of_getElem? hri)]
          exact hj
        rw [List.getElem?_append, if_pos hjr]
  · intro hwf i hi
    unfold DF.entry
    rw [List.getElem?_map]
    cases hri : df.rows[i]? with
    | none =>
        have := List.getElem?_eq_none_iff.mp hri
        omega
    | some ri =>
        simp only [Option.map_some']
        have hlen : ri.2.length = df.cols.length := hwf ri (mem_of_getElem? hri)
        rw [← hlen]
        exact List.getElem?_concat_length _ _
  · intro hwf r hr
    simp only [List.mem_map] at hr
    obtain ⟨r0, hr0, he2⟩ := hr
    subst he2
    simp [hwf r0 hr0]

/-- Closed form of set_value when the column already exists. -/
theorem setValue_eq_of_col (df : DF) (label col : String) (v : Val) (jc : ℕ)
    (hcol : df.colIdx col = some jc) :
    df.setValue label col v =
      if df.rows.any (fun r => r.1 = label) then
        ⟨df.cols, df.rows.map fun r => if r.1 = label then (r.1, r.2.set jc v) else r⟩
      else
        ⟨df.cols, df.rows ++
          [(label, (List.range df.cols.length).map fun k => if k = jc then v else Val.nan)]⟩ := by
  unfold DF.setValue
  simp only [hcol, Option.getD_some]

/-- General effect of set_value on an existing column: the schema is kept,
row count does not shrink, and every cell of an existing row outside the
updated column is untouched. -/
theorem setValue_props (df : DF) (label col : String) (v : Val) (jc : ℕ)
    (hcol : df.colIdx col = some jc) (hwf : df.WF) :
    (df.setValue label col v).cols = df.cols ∧
    (df.setValue label col v).WF ∧
    df.rows.length ≤ (df.setValue label col v).rows.length ∧
    (∀ i, i < df.rows.length → (df.setValue label col v).labelAt i = df.labelAt i) ∧
    (∀ i j, j ≠ jc → i < df.rows.length →
      (df.setValue label col v).entry i j = df.entry i j) := by
  rw [setValue_eq_of_col df label col v jc hcol]
  by_cases hany : (df.rows.any fun r => r.1 = label) = true
  · rw [if_pos hany]
    refine ⟨rfl, ?_, ?_, ?_, ?_⟩
    · intro r hr
      simp only [List.mem_map] at hr
      obtain ⟨r0, hr0, he2⟩ := hr
      subst he2
      by_cases h0 : r0.1 = label <;> simp [h0, hwf r0 hr0]
    · rw [List.length_map]
    · intro i hi
      unfold DF.labelAt
      rw [List.getElem?_map]
      cases hri : df.rows[i]? with
      | none => rfl
      | some ri =>
          simp only [Option.map_some']
          by_cases h0 : ri.1 = label <;> simp [h0]
    · intro i j hj hi
      unfold DF.entry
      rw [List.getElem?_map]
      cases hri : df.rows[i]? with
      | none => rfl
      | some ri =>
          simp only [Option.map_some']
          by_cases h0 : ri.1 = label
          · simp only [h0, if_pos rfl]
            exact List.getElem?_set_ne (fun he2 => hj he2.symm)
          · simp [h0]
  · rw [if_neg hany]
    refine ⟨rfl, ?_, ?_, ?_, ?_⟩
    · intro r hr
      rw [List.mem_append] at hr
      rcases hr with hr | hr
      · exact hwf r hr
      · rw [List.mem_singleton] at hr
        subst hr
        simp
    · simp
    · intro i hi
      unfold DF.labelAt
      rw [List.getElem?_append, if_pos hi]
    · intro i j hj hi
      unfold DF.entry
      rw [List.getElem?_append, if_pos hi]

/-- Effect of set_value on an existing column when exactly one existing row
carries the target label: that row's cell in the updated column receives v,
every other row keeps its value there, and shape, labels and row count are
all preserved. -/
theorem setValue_update (df : DF) (label col : String) (v : Val) (jc i0 : ℕ)
    (hcol : df.colIdx col = some jc) (hwf : df.WF) (hnd : df.labels.Nodup)
    (hi0 : df.labelAt i0 = some label) :
    (df.setValue label col v).rows.length = df.rows.length ∧
    (df.setValue label col v).labels = df.labels ∧
    (df.setValue label col v).entry i0 jc = some v ∧
    (∀ i, i ≠ i0 → (df.setValue label col v).entry i jc = df.entry i jc) ∧
    (∀ i j, j ≠ jc → (df.setValue label col v).entry i j = df.entry i j) := by
  unfold DF.labelAt at hi0
  cases hri0 : df.rows[i0]? with
  | none => rw [hri0] at hi0; exact Option.noConfusion hi0
  | some r0 =>
  rw [hri0] at hi0
  have hlab0 : r0.1 = label := Option.some.injEq .. ▸ (by simpa using hi0)
  have hi0lt : i0 < df.rows.length := (List.getElem?_eq_some.mp hri0).1
  have hany : (df.rows.any fun r => r.1 = label) = true := by
    rw [List.any_eq_true]
    exact ⟨r0, mem_of_getElem? hri0, by simp [hlab0]⟩
  rw [setValue_eq_of_col df label col v jc hcol, if_pos hany]
  have hlabels : (List.map (fun r => if r.1 = label then (r.1, r.2.set jc v) else r)
      df.rows).map Prod.fst = df.rows.map Prod.fst := by
    rw [List.map_map]
    apply List.map_congr_left
    intro r _
    by_cases h0 : r.1 = label <;> simp [h0]
  refine ⟨List.length_map _ _, hlabels, ?_, ?_, ?_⟩
  · unfold DF.entry
    rw [List.getElem?_map, hri0]
    simp only [Option.map_some', hlab0, if_pos rfl]
    have hjlt : jc < r0.2.length := by
      rw [hwf r0 (mem_of_getElem? hri0)]
      exact colIdx_lt df col jc hcol
    exact List.getElem?_set_self hjlt
  · intro i hne
    unfold DF.entry
    rw [List.getElem?_map]
    cases hri : df.rows[i]? with
    | none => rfl
    | some ri =>
        simp only [Option.map_some']
        have hri_ne : ri.1 ≠ label := by
          intro heq
          apply hne


          have h1 : df.labels[i]? = some label := by
            unfold DF.labels
            rw [List.getElem?_map, hri]
            simp [heq]
          have h2 : df.labels[i0]? = some label := by
            unfold DF.labels
            rw [List.getElem?_map, hri0]
            simp [hlab0]
          have hilt : i < df.labels.length := by
            unfold DF.labels
            rw [List.length_map]
            exact (List.getElem?_eq_some.mp hri).1
          exact List.getElem?_inj hilt hnd (h1.trans h2.symm)
        simp [hri_ne]
  · intro i j hj
    unfold DF.entry
    rw [List.getElem?_map]
    cases hri : df.rows[i]? with
    | none => rfl
    | some ri =>
        simp only [Option.map_some']
        by_cases h0 : ri.1 = label
        · simp only [h0, if_pos rfl]
          exact List.getElem?_set_ne (fun he2 => hj he2.symm)
        · simp [h0]

/-- Label access through the label list. -/
theorem labelAt_eq_labels (df : DF) (i : ℕ) : df.labelAt i = df.labels[i]? := by
  unfold DF.labelAt DF.labels
  rw [List.getElem?_map]

/-- Coercion of a cell list preserves length. -/
theorem astypeVals_length (l : List Val) : ∀ l', astypeVals l = .ok l' →
    l'.length = l.length := by
  induction l with
  | nil =>
      intro l' h
      injection h with h
      subst h
      rfl
  | cons v vs ih =>
      intro l' h
      unfold astypeVals at h
      cases hv : v.astype1 with
      | error e => rw [hv] at h; exact Except.noConfusion h
      | ok w =>
          rw [hv] at h
          cases hvs : astypeVals vs with
          | error e => rw [hvs] at h; exact Except.noConfusion h
          | ok ws =>
              rw [hvs] at h
              injection h with h
              subst h
              simp [ih ws hvs]

/-- Numeric cells pass through coercion unchanged. -/
theorem astypeVals_get_num (l : List Val) : ∀ (l' : List Val) (j : ℕ) (q : Frac),
    astypeVals l = .ok l' →
    l[j]? = some (Val.num q) → l'[j]? = some (Val.num q) := by
  induction l with
  | nil =>
      intro l' j q h hg
      rw [List.getElem?_nil] at hg
      exact Option.noConfusion hg
  | cons v vs ih =>
      intro l' j q h hg
      unfold astypeVals at h
      cases hv : v.astype1 with
      | error e => rw [hv] at h; exact Except.noConfusion h
      | ok w =>
          rw [hv] at h
          cases hvs : astypeVals vs with
          | error e => rw [hvs] at h; exact Except.noConfusion h
          | ok ws =>
              rw [hvs] at h
              injection h with h
              subst h
              cases j with
              | zero =>
                  rw [List.getElem?_cons_zero] at hg
                  injection hg with hg
                  subst hg
                  simp only [Val.astype1] at hv
                  injection hv with hv
                  subst hv
                  exact List.getElem?_cons_zero
              | succ j =>
                  rw [List.getElem?_cons_succ] at hg ⊢
                  exact ih ws j q hvs hg

/-- String cells must parse and become their parsed numbers. -/
theorem astypeVals_get_str (l : List Val) : ∀ (l' : List Val) (j : ℕ) (s : String),
    astypeVals l = .ok l' →
    l[j]? = some (Val.str s) →
    ∃ q, parseFloat s = some q ∧ l'[j]? = some (Val.num q) := by
  induction l with
  | nil =>
      intro l' j s h hg
      rw [List.getElem?_nil] at hg
      exact Option.noConfusion hg
  | cons v vs ih =>
      intro l' j s h hg
      unfold astypeVals at h
      cases hv : v.astype1 with
      | error e => rw [hv] at h; exact Except.noConfusion h
      | ok w =>
          rw [hv] at h
          cases hvs : astypeVals vs with
          | error e => rw [hvs] at h; exact Except.noConfusion h
          | ok ws =>
              rw [hvs] at h
              injection h with h
              subst h
              cases j with
              | zero =>
                  rw [List.getElem?_cons_zero] at hg
                  injection hg with hg
                  subst hg
                  simp only [Val.astype1] at hv
                  cases hp : parseFloat s with
                  | none => rw [hp] at hv; exact Except.noConfusion hv
                  | some q =>
                      rw [hp] at hv
                      injection hv with hv
                      subst hv
                      exact ⟨q, rfl, List.getElem?_cons_zero⟩
              | succ j =>
                  rw [List.getElem?_cons_succ] at hg ⊢
                  exact ih ws j s hvs hg

/-- Row-level coercion: labels are kept and value lists are coerced. -/
theorem astypeRows_get (rs : List (String × List Val)) :
    ∀ (rs' : List (String × List Val)) (i : ℕ) (r : String × List Val),
      astypeRows rs = .ok rs' → rs[i]? = some r →
      ∃ vs, astypeVals r.2 = .ok vs ∧ rs'[i]? = some (r.1, vs) := by
  induction rs with
  | nil =>
      intro rs' i r h hg
      rw [List.getElem?_nil] at hg
      exact Option.noConfusion hg
  | cons r0 rest ih =>
      intro rs' i r h hg
      unfold astypeRows at h
      cases hv : astypeVals r0.2 with
      | error e => rw [hv] at h; exact Except.noConfusion h
      | ok vs0 =>
          rw [hv] at h
          cases hrest : astypeRows rest with
          | error e => rw [hrest] at h; exact Except.noConfusion h
          | ok rest' =>
              rw [hrest] at h
              injection h with h
              subst h
              cases i with
              | zero =>
                  rw [List.getElem?_cons_zero] at hg
                  injection hg with hg
                  subst hg
                  exact ⟨vs0, hv, List.getElem?_cons_zero⟩
              | succ i =>
                  rw [List.getElem?_cons_succ] at hg ⊢
                  exact ih rest' i r hrest hg

/-- Row-level coercion preserves the row count. -/
theorem astypeRows_length (rs : List (String × List Val)) :
    ∀ rs', astypeRows rs = .ok rs' → rs'.length = rs.length := by
  induction rs with
  | nil =>
      intro rs' h
      injection h with h
      subst h
      rfl
  | cons r0 rest ih =>
      intro rs' h
      unfold astypeRows at h
      cases hv : astypeVals r0.2 with
      | error e => rw [hv] at h; exact Except.noConfusion h
      | ok vs0 =>
          rw [hv] at h
          cases hrest : astypeRows rest with
          | error e => rw [hrest] at h; exact Except.noConfusion h
          | ok rest' =>
              rw [hrest] at h
              injection h with h
              subst h
              simp [ih rest' hrest]

/-- Inversion of table coercion. -/
theorem astypeFloat_inv (df df' : DF) (h : df.astypeFloat = .ok df') :
    df'.cols = df.cols ∧ astypeRows df.rows = .ok df'.rows := by
  unfold DF.astypeFloat at h
  cases hr : astypeRows df.rows with
  | error e => rw [hr] at h; exact Except.noConfusion h
  | ok rs' =>
      rw [hr] at h
      injection h with h
      subst h
      exact ⟨rfl, rfl⟩

/-- Inversion of the sentinel normalization: the db column exists, shape and
labels are kept, cells outside the db column are untouched, and each
dual-bound cell is rewritten pointwise by dbNorm. -/
theorem normalizeDb_inv (df df' : DF) (h : normalizeDb df = .ok df') :
    ∃ jdb, df.colIdx "db" = some jdb ∧ df'.cols = df.cols ∧
      df'.rows.length = df.rows.length ∧
      (∀ i, df'.labelAt i = df.labelAt i) ∧
      (∀ i j, j ≠ jdb → df'.entry i j = df.entry i j) ∧
      (∀ i v, df.entry i jdb = some v → df'.entry i jdb = some (dbNorm v)) := by
  unfold normalizeDb at h
  cases hj : df.colIdx "db" with
  | none => rw [hj] at h; exact Except.noConfusion h
  | some jdb =>
      rw [hj] at h
      injection h with h
      subst h
      refine ⟨jdb, rfl, rfl, List.length_map _ _, ?_, ?_, ?_⟩
      · intro i
        unfold DF.labelAt
        rw [List.getElem?_map]
        cases df.rows[i]? with
        | none => rfl
        | some r => rfl
      · intro i j hj2
        unfold DF.entry
        rw [List.getElem?_map]
        cases df.rows[i]? with
        | none => rfl
        | some r =>
            simp only [Option.map_some']
            exact List.getElem?_set_ne (fun he => hj2 he.symm)
      · intro i v hv
        unfold DF.entry at hv ⊢
        rw [List.getElem?_map]
        cases hri : df.rows[i]? with
        | none => rw [hri] at hv; exact Option.noConfusion hv
        | some r =>
            rw [hri] at hv
            have hv' : r.2[jdb]? = some v := hv
            simp only [Option.map_some']
            have hlt : jdb < r.2.length := (List.getElem?_eq_some.mp hv').1
            have hget : r.2.getD jdb Val.nan = v := by
              rw [List.getD_eq_getElem?_getD, hv']
              rfl
            rw [hget]
            exact List.getElem?_set_self hlt

/-- The ok value of the pandas filter count is the pure count. -/
theorem countWhere_ok (dfv : DF) (vc : String) (i c : ℕ)
    (h : dfv.countWhere vc i = .ok c) : c = countPure dfv vc i := by
  unfold DF.countWhere at h
  cases h1 : dfv.colIdx vc <;> cases h2 : dfv.colIdx "rootredcostcall" <;>
    rw [h1, h2] at h
  case none.none => exact Except.noConfusion h
  case none.some => exact Except.noConfusion h
  case some.none => exact Except.noConfusion h
  case some.some =>
      injection h with h
      subst h
      rfl

/-- Preservation along the count loop: schema and well-formedness are kept,
rows never disappear, and every cell of a pre-existing row outside the
target column is untouched (no matter what the labels are). -/
theorem countLoop_preserve (dfv : DF) (vc tgt : String) (jc : ℕ) (n : ℕ) :
    ∀ df df', countLoop dfv vc tgt n df = .ok df' → df.colIdx tgt = some jc →
      df.WF →
      df'.cols = df.cols ∧ df'.WF ∧ df.rows.length ≤ df'.rows.length ∧
      (∀ i, i < df.rows.length → df'.labelAt i = df.labelAt i) ∧
      (∀ i j, j ≠ jc → i < df.rows.length → df'.entry i j = df.entry i j) := by
  induction n with
  | zero =>
      intro df df' h hcol hwf
      injection h with h
      subst h
      exact ⟨rfl, hwf, le_refl _, fun _ _ => rfl, fun _ _ _ _ => rfl⟩
  | succ n ih =>
      intro df df' h hcol hwf
      unfold countLoop at h
      cases hm : countLoop dfv vc tgt n df with
      | error e => rw [hm] at h; exact Except.noConfusion h
      | ok dfm =>
          rw [hm] at h
          cases hc : dfv.countWhere vc n with
          | error e => rw [hc] at h; exact Except.noConfusion h
          | ok c =>
              rw [hc] at h
              injection h with h
              subst h
              obtain ⟨hcols, hwfm, hlen, hlab, hent⟩ := ih df dfm hm hcol hwf
              have hcolm : dfm.colIdx tgt = some jc := by
                show dfm.cols.findIdx? _ = some jc
                rw [hcols]
                exact hcol
              obtain ⟨scols, swf, slen, slab, sent⟩ :=
                setValue_props dfm (toString n) tgt (.num (Frac.ofNat c)) jc hcolm hwfm
              refine ⟨scols.trans hcols, swf, le_trans hlen slen, ?_, ?_⟩
              · intro i hi
                rw [slab i (lt_of_lt_of_le hi hlen), hlab i hi]
              · intro i j hj hi
                rw [sent i j hj (lt_of_lt_of_le hi hlen), hent i j hj hi]

/-- Exact behavior of the count loop when the row labels are precisely the
decimal numerals of the row positions: iteration i stores the pure count for
index i in row i of the target column, nothing else moves, and no rows are
appended. -/
theorem countLoop_exact (dfv : DF) (vc tgt : String) (jc : ℕ) (n : ℕ) :
    ∀ df df', countLoop dfv vc tgt n df = .ok df' → df.colIdx tgt = some jc →
      df.WF → df.labels.Nodup →
      (∀ i, i < df.rows.length → df.labelAt i = some (toString i)) →
      n ≤ df.rows.length →
      df'.cols = df.cols ∧ df'.WF ∧ df'.rows.length = df.rows.length ∧
      df'.labels = df.labels ∧
      (∀ i, i < n → df'.entry i jc = some (.num (Frac.ofNat (countPure dfv vc i)))) ∧
      (∀ i j, j ≠ jc → df'.entry i j = df.entry i j) := by
  induction n with
  | zero =>
      intro df df' h hcol hwf hnd hlab hn
      injection h with h
      subst h
      exact ⟨rfl, hwf, rfl, rfl, fun i hi => absurd hi (Nat.not_lt_zero i),
        fun _ _ _ => rfl⟩
  | succ n ih =>
      intro df df' h hcol hwf hnd hlab hn
      unfold countLoop at h
      cases hm : countLoop dfv vc tgt n df with
      | error e => rw [hm] at h; exact Except.noConfusion h
      | ok dfm =>
          rw [hm] at h
          cases hc : dfv.countWhere vc n with
          | error e => rw [hc] at h; exact Except.noConfusion h
          | ok c =>
              rw [hc] at h
              injection h with h
              subst h
              obtain ⟨hcols, hwfm, hlenm, hlabels, hval, hent⟩ :=
                ih df dfm hm hcol hwf hnd hlab (Nat.le_of_succ_le hn)
              have hcolm : dfm.colIdx tgt = some jc := by
                show dfm.cols.findIdx? _ = some jc
                rw [hcols]
                exact hcol
              have hndm : dfm.labels.Nodup := hlabels ▸ hnd
              have hlabm : dfm.labelAt n = some (toString n) := by
                rw [labelAt_eq_labels, hlabels, ← labelAt_eq_labels]
                exact hlab n hn
              obtain ⟨ulen, ulabels, uval, uother, uent⟩ :=
                setValue_update dfm (toString n) tgt (.num (Frac.ofNat c)) jc n hcolm hwfm
                  hndm hlabm
              have hcv : c = countPure dfv vc n := countWhere_ok dfv vc n c hc
              refine ⟨(setValue_props dfm (toString n) tgt (.num (Frac.ofNat c)) jc hcolm
                hwfm).1.trans hcols,
                (setValue_props dfm (toString n) tgt (.num (Frac.ofNat c)) jc hcolm hwfm).2.1,
                ulen.trans hlenm, ulabels.trans hlabels, ?_, ?_⟩
              · intro i hi
                rcases Nat.lt_succ_iff_lt_or_eq.mp hi with hi | hi
                · rw [uother i (Nat.ne_of_lt hi), hval i hi]
                · subst hi
                  rw [uval, hcv]
              · intro i j hj
                rw [uent i j hj, hent i j hj]

/-- A cell resolvable by name pins down the column index. -/
theorem cell_some_colIdx (df : DF) (i : ℕ) (c : String) (v : Val)
    (h : df.cell i c = some v) :
    ∃ j, df.colIdx c = some j ∧ df.entry i j = some v := by
  unfold DF.cell at h
  cases hj : df.colIdx c with
  | none => rw [hj] at h; exact Option.noConfusion h
  | some j =>
      rw [hj] at h
      exact ⟨j, rfl, h⟩

/-- String cells survive table coercion as their parsed numbers. -/
theorem astypeFloat_entry_str (df df' : DF) (h : df.astypeFloat = .ok df')
    (i j : ℕ) (s : String) (he : df.entry i j = some (Val.str s)) :
    ∃ q, parseFloat s = some q ∧ df'.entry i j = some (Val.num q) := by
  obtain ⟨-, hrows⟩ := astypeFloat_inv df df' h
  unfold DF.entry at he ⊢
  cases hri : df.rows[i]? with
  | none => rw [hri] at he; exact Option.noConfusion he
  | some r =>
      rw [hri] at he
      obtain ⟨vs, hvs, hr'⟩ := astypeRows_get df.rows df'.rows i r hrows hri
      rw [hr']
      exact astypeVals_get_str r.2 vs j s hvs he

/-- Numeric cells survive table coercion unchanged. -/
theorem astypeFloat_entry_num (df df' : DF) (h : df.astypeFloat = .ok df')
    (i j : ℕ) (q : Frac) (he : df.entry i j = some (Val.num q)) :
    df'.entry i j = some (Val.num q) := by
  obtain ⟨-, hrows⟩ := astypeFloat_inv df df' h
  unfold DF.entry at he ⊢
  cases hri : df.rows[i]? with
  | none => rw [hri] at he; exact Option.noConfusion he
  | some r =>
      rw [hri] at he
      obtain ⟨vs, hvs, hr'⟩ := astypeRows_get df.rows df'.rows i r hrows hri
      rw [hr']
      exact astypeVals_get_num r.2 vs j q hvs he

/-- Table coercion preserves the row count. -/
theorem astypeFloat_length (df df' : DF) (h : df.astypeFloat = .ok df') :
    df'.rows.length = df.rows.length := by
  obtain ⟨-, hrows⟩ := astypeFloat_inv df df' h
  exact astypeRows_length df.rows df'.rows hrows

/-- Inversion of the count phase into its two loops. -/
theorem countPhase_inv (dv df0 dfD : DF) (h : countPhase dv df0 = .ok dfD) :
    ∃ dfB,
      countLoop dv "rootlpsolval" "nlpvars"
        (df0.addColConst "nlpvars" (Val.num 0)).rows.length
        (df0.addColConst "nlpvars" (Val.num 0)) = .ok dfB ∧
      countLoop dv "solval" "nipvars"
        (dfB.addColConst "nipvars" (Val.num 0)).rows.length
        (dfB.addColConst "nipvars" (Val.num 0)) = .ok dfD := by
  unfold countPhase at h
  cases h1 : countLoop dv "rootlpsolval" "nlpvars"
      (df0.addColConst "nlpvars" (Val.num 0)).rows.length
      (df0.addColConst "nlpvars" (Val.num 0)) with
  | error e => rw [h1] at h; exact Except.noConfusion h
  | ok dfB =>
      rw [h1] at h
      exact ⟨dfB, rfl, h⟩

/-- The emit phase on an empty bounds table is the silent skip. -/
theorem emitPhase_skip (dv dfD : DF) (h : dfD.rows.isEmpty = true) :
    emitPhase dv dfD = .ok ⟨dfD, dv, false, 0, 0⟩ := by
  unfold emitPhase
  rw [if_pos h]

/-- Inversion of the emit phase on a nonempty bounds table: coercion and
normalization succeeded and the emitted result is fully determined, with the
axis maxima computed from the normalized table. -/
theorem emitPhase_emit (dv dfD : DF) (r : FinRes) (h : emitPhase dv dfD = .ok r)
    (hne : dfD.rows.isEmpty = false) :
    ∃ dfE dfF jlp jip, dfD.astypeFloat = .ok dfE ∧ normalizeDb dfE = .ok dfF ∧
      dfF.colIdx "nlpvars" = some jlp ∧ dfF.colIdx "nipvars" = some jip ∧
      r = ⟨dfF, dv, true, (dfF.colMaxAt jlp).getD 0, (dfF.colMaxAt jip).getD 0⟩ := by
  unfold emitPhase at h
  rw [if_neg (by rw [hne]; exact Bool.noConfusion)] at h
  split at h
  · exact Except.noConfusion h
  · rename_i dfE h1
    split at h
    · exact Except.noConfusion h
    · rename_i dfF h2
      split at h
      · rename_i jlp jip h3 h4
        split at h
        · injection h with h
          subst h
          exact ⟨dfE, dfF, jlp, jip, h1, h2, h3, h4, rfl⟩
        · exact Except.noConfusion h
      · exact Except.noConfusion h

/-- The variable table handed back by the emit phase is the coerced one. -/
theorem emitPhase_dfvar (dv dfD : DF) (r : FinRes) (h : emitPhase dv dfD = .ok r) :
    r.dfvar = dv := by
  by_cases he : dfD.rows.isEmpty = true
  · rw [emitPhase_skip dv dfD he] at h
    injection h with h
    subst h
    rfl
  · obtain ⟨dfE, dfF, jlp, jip, -, -, -, -, hr⟩ :=
      emitPhase_emit dv dfD r h (Bool.not_eq_true _ ▸ he)
    subst hr
    rfl

/-- Inversion of finalization into its phases. -/
theorem finalize_inv (df0 dfvar0 : DF) (r : FinRes)
    (h : finalize df0 dfvar0 = .ok r) :
    ∃ dv1 dv dfD, dfvar0.setIndex "name" = .ok dv1 ∧ dv1.astypeFloat = .ok dv ∧
      countPhase dv df0 = .ok dfD ∧ emitPhase dv dfD = .ok r := by
  unfold finalize at h
  split at h
  · exact Except.noConfusion h
  · rename_i dv1 h1
    split at h
    · exact Except.noConfusion h
    · rename_i dv h2
      split at h
      · exact Except.noConfusion h
      · rename_i dfD h3
        exact ⟨dv1, dv, dfD, h1, h2, h3, h⟩

/-- Equal label lists give equal labels at every position. -/
theorem labelAt_congr (df1 df2 : DF) (h : df1.labels = df2.labels) (i : ℕ) :
    df1.labelAt i = df2.labelAt i := by
  rw [labelAt_eq_labels, labelAt_eq_labels, h]

/-- Column lookup only reads the schema. -/
theorem colIdx_congr (df1 df2 : DF) (h : df1.cols = df2.cols) (c : String) :
    df1.colIdx c = df2.colIdx c := by
  unfold DF.colIdx
  rw [h]

/-- The second attached column is absent from the once-extended schema. -/
theorem nipvars_absent (df0 dfB : DF) (hni : df0.colIdx "nipvars" = none)
    (hc : dfB.cols = df0.cols ++ ["nlpvars"]) : dfB.colIdx "nipvars" = none := by
  rw [colIdx_eq_none] at hni ⊢
  rw [hc, List.mem_append, List.mem_singleton]
  rintro (h | h)
  · exact hni h
  · exact absurd h (by decide)

/-- Preservation through the whole count phase: the schema gains the two
count columns on the right, rows never disappear, and every cell of a
pre-existing row in a pre-existing column is untouched, regardless of the
row labels. -/
theorem countPhase_preserve (dv df0 dfD : DF) (h : countPhase dv df0 = .ok dfD)
    (hwf : df0.WF) (hnl : df0.colIdx "nlpvars" = none)
    (hni : df0.colIdx "nipvars" = none) :
    dfD.cols = (df0.cols ++ ["nlpvars"]) ++ ["nipvars"] ∧ dfD.WF ∧
    df0.rows.length ≤ dfD.rows.length ∧
    (∀ i, i < df0.rows.length → dfD.labelAt i = df0.labelAt i) ∧
    (∀ i j, j < df0.cols.length → i < df0.rows.length → dfD.entry i j = df0.entry i j) := by
  obtain ⟨dfB, hB, hD⟩ := countPhase_inv dv df0 dfD h
  obtain ⟨hAc, hAl, hAlab, hAent, -, hAwf⟩ := addColConst_new df0 "nlpvars" (Val.num 0) hnl
  have hAcol : (df0.addColConst "nlpvars" (Val.num 0)).colIdx "nlpvars" =
      some df0.cols.length := by
    show (df0.addColConst "nlpvars" (Val.num 0)).cols.findIdx? _ = _
    rw [hAc]
    exact colIdx_append_self df0 "nlpvars" hnl []
  obtain ⟨hBc, hBwf, hBlen, hBlab, hBent⟩ :=
    countLoop_preserve dv "rootlpsolval" "nlpvars" df0.cols.length _ _ dfB hB hAcol
      (hAwf hwf)
  have hBcols : dfB.cols = df0.cols ++ ["nlpvars"] := hBc.trans hAc
  have hCnone : dfB.colIdx "nipvars" = none := nipvars_absent df0 dfB hni hBcols
  obtain ⟨hCc, hCl, hClab, hCent, -, hCwf⟩ := addColConst_new dfB "nipvars" (Val.num 0) hCnone
  have hCcol : (dfB.addColConst "nipvars" (Val.num 0)).colIdx "nipvars" =
      some dfB.cols.length := by
    show (dfB.addColConst "nipvars" (Val.num 0)).cols.findIdx? _ = _
    rw [hCc]
    exact colIdx_append_self dfB "nipvars" hCnone []
  obtain ⟨hDc, hDwf, hDlen, hDlab, hDent⟩ :=
    countLoop_preserve dv "solval" "nipvars" dfB.cols.length _ _ dfD hD hCcol (hCwf hBwf)
  have hlen0 : df0.rows.length = (df0.addColConst "nlpvars" (Val.num 0)).rows.length :=
    hAl.symm
  have hlenB : df0.rows.length ≤ dfB.rows.length := hlen0 ▸ hBlen
  have hlenC : df0.rows.length ≤ (dfB.addColConst "nipvars" (Val.num 0)).rows.length := by
    rw [hCl]
    exact hlenB
  have hjB : df0.cols.length < dfB.cols.length := by
    rw [hBcols, List.length_append]
    simp
  refine ⟨by rw [hDc, hCc, hBcols], hDwf, le_trans hlenC hDlen, ?_, ?_⟩
  · intro i hi
    rw [hDlab i (lt_of_lt_of_le hi hlenC), labelAt_congr _ dfB hClab i,
      hBlab i (hlen0 ▸ hi), labelAt_congr _ df0 hAlab i]
  · intro i j hj hi
    rw [hDent i j (Nat.ne_of_lt (lt_of_lt_of_le hj (Nat.le_of_lt hjB)))
      (lt_of_lt_of_le hi hlenC)]
    rw [hCent hBwf i j (lt_trans hj hjB)]
    rw [hBent i j (Nat.ne_of_lt hj) (hlen0 ▸ hi)]
    exact hAent hwf i j hj

/-- Exact behavior of the whole count phase when the bounds-table labels are
the decimal numerals of the row positions: no rows are appended, labels are
kept, row i receives the pure count for index i in both count columns, and
all original cells are untouched. -/
theorem countPhase_exact (dv df0 dfD : DF) (h : countPhase dv df0 = .ok dfD)
    (hwf : df0.WF) (hnd : df0.labels.Nodup)
    (hlab : ∀ i, i < df0.rows.length → df0.labelAt i = some (toString i))
    (hnl : df0.colIdx "nlpvars" = none) (hni : df0.colIdx "nipvars" = none) :
    dfD.cols = (df0.cols ++ ["nlpvars"]) ++ ["nipvars"] ∧ dfD.WF ∧
    dfD.rows.length = df0.rows.length ∧ dfD.labels = df0.labels ∧
    (∀ i, i < df0.rows.length →
      dfD.entry i df0.cols.length =
        some (.num (Frac.ofNat (countPure dv "rootlpsolval" i))) ∧
      dfD.entry i (df0.cols.length + 1) =
        some (.num (Frac.ofNat (countPure dv "solval" i)))) ∧
    (∀ i j, j < df0.cols.length → dfD.entry i j = df0.entry i j) := by
  obtain ⟨dfB, hB, hD⟩ := countPhase_inv dv df0 dfD h
  obtain ⟨hAc, hAl, hAlab, hAent, -, hAwf⟩ := addColConst_new df0 "nlpvars" (Val.num 0) hnl
  have hAcol : (df0.addColConst "nlpvars" (Val.num 0)).colIdx "nlpvars" =
      some df0.cols.length := by
    show (df0.addColConst "nlpvars" (Val.num 0)).cols.findIdx? _ = _
    rw [hAc]
    exact colIdx_append_self df0 "nlpvars" hnl []
  obtain ⟨hBc, hBwf, hBlen, hBlabels, hBval, hBent⟩ :=
    countLoop_exact dv "rootlpsolval" "nlpvars" df0.cols.length _ _ dfB hB hAcol
      (hAwf hwf) (hAlab ▸ hnd)
      (fun i hi => by
        rw [labelAt_congr _ df0 hAlab i]
        exact hlab i (hAl ▸ hi))
      (le_refl _)
  have hBcols : dfB.cols = df0.cols ++ ["nlpvars"] := hBc.trans hAc
  have hBlen0 : dfB.rows.length = df0.rows.length := hBlen.trans hAl
  have hBlabels0 : dfB.labels = df0.labels := hBlabels.trans hAlab
  have hCnone : dfB.colIdx "nipvars" = none := nipvars_absent df0 dfB hni hBcols
  obtain ⟨hCc, hCl, hClab, hCent, -, hCwf⟩ := addColConst_new dfB "nipvars" (Val.num 0) hCnone
  have hCcol : (dfB.addColConst "nipvars" (Val.num 0)).colIdx "nipvars" =
      some dfB.cols.length := by
    show (dfB.addColConst "nipvars" (Val.num 0)).cols.findIdx? _ = _
    rw [hCc]
    exact colIdx_append_self dfB "nipvars" hCnone []
  obtain ⟨hDc, hDwf, hDlen, hDlabels, hDval, hDent⟩ :=
    countLoop_exact dv "solval" "nipvars" dfB.cols.length _ _ dfD hD hCcol
      (hCwf hBwf) (hClab ▸ hBlabels0 ▸ hnd)
      (fun i hi => by
        rw [labelAt_congr _ dfB hClab i, labelAt_congr dfB df0 hBlabels0 i]
        exact hlab i (by rw [hCl, hBlen0] at hi; exact hi))
      (le_refl _)
  have hCl0 : (dfB.addColConst "nipvars" (Val.num 0)).rows.length = df0.rows.length :=
    hCl.trans hBlen0
  have hjBlen : dfB.cols.length = df0.cols.length + 1 := by
    rw [hBcols, List.length_append]
    rfl
  refine ⟨by rw [hDc, hCc, hBcols], hDwf, (hDlen.trans hCl).trans hBlen0,
    (hDlabels.trans hClab).trans hBlabels0, ?_, ?_⟩
  · intro i hi
    constructor
    · rw [hDent i df0.cols.length (by omega)]
      rw [hCent hBwf i df0.cols.length (by omega)]
      exact (hBval i (hAl ▸ hi)).symm ▸ hBval i (hAl ▸ hi)
    · have := hDval i (by rw [hCl0]; exact hi)
      rw [hjBlen] at this
      exact this
  · intro i j hj
    rw [hDent i j (by omega)]
    rw [hCent hBwf i j (by omega)]
    rw [hBent i j (by omega)]
    exact hAent hwf i j hj

/-- Claim C2: in the table handed to the renderer, every dual-bound value at
or below -10^20 has been replaced by the missing-value marker and every
dual-bound value above the sentinel is unchanged; the chart is emitted, and
the scatter axis maximum is computed from the already-normalized table. -/
theorem c2_db_normalization (df0 dfvar0 : DF) (r : FinRes)
    (hok : finalize df0 dfvar0 = .ok r) (hwf : df0.WF)
    (hnl : df0.colIdx "nlpvars" = none) (hni : df0.colIdx "nipvars" = none)
    (i : ℕ) (hi : i < df0.rows.length) (t : String) (q : Frac)
    (hcell : df0.cell i "db" = some (.str t)) (hq : parseFloat t = some q) :
    r.df.cell i "db" = some (if q.le negInfty then Val.nan else Val.num q) ∧
    r.emit = true ∧
    (∃ jlp, r.df.colIdx "nlpvars" = some jlp ∧
      r.lpmax = (r.df.colMaxAt jlp).getD 0) := by
  obtain ⟨dv1, dv, dfD, h1, h2, h3, h4⟩ := finalize_inv df0 dfvar0 r hok
  obtain ⟨jdb, hjdb, hent0⟩ := cell_some_colIdx df0 i "db" _ hcell
  have hjlt : jdb < df0.cols.length := colIdx_lt df0 "db" jdb hjdb
  obtain ⟨hPc, hPwf, hPlen, hPlab, hPent⟩ := countPhase_preserve dv df0 dfD h3 hwf hnl hni
  have hne : dfD.rows.isEmpty = false := by
    rw [List.isEmpty_eq_false]
    intro he
    have hz : df0.rows.length ≤ 0 := by
      have h0 := hPlen
      rw [he] at h0
      simpa using h0
    omega
  obtain ⟨dfE, dfF, jlp, jip, hE, hF, hjlp, hjip, hr⟩ := emitPhase_emit dv dfD r h4 hne
  have hDent : dfD.entry i jdb = some (.str t) := by
    rw [hPent i jdb hjlt hi]
    exact hent0
  obtain ⟨q', hq', hEent⟩ := astypeFloat_entry_str dfD dfE hE i jdb t hDent
  have hqq : q' = q := Option.some.inj (hq'.symm.trans hq)
  subst hqq
  obtain ⟨jdb', hjdb', hFc, hFlen, hFlab, hFother, hFdb⟩ := normalizeDb_inv dfE dfF hF
  have hEcols : dfE.cols = dfD.cols := (astypeFloat_inv dfD dfE hE).1
  have hDdb : dfD.colIdx "db" = some jdb := by
    have t1 := colIdx_append df0 "db" "nlpvars" jdb hjdb []
    have t2 := colIdx_append (DF.mk (df0.cols ++ ["nlpvars"]) []) "db" "nipvars" jdb t1 []
    show dfD.cols.findIdx? _ = _
    rw [hPc]
    exact t2
  have hE_db : dfE.colIdx "db" = some jdb := by
    rw [colIdx_congr dfE dfD hEcols]
    exact hDdb
  have hjdbeq : jdb' = jdb := Option.some.inj (hjdb'.symm.trans hE_db)
  subst hjdbeq
  have hFent : dfF.entry i jdb' = some (dbNorm (.num q')) := hFdb i _ hEent
  subst hr
  refine ⟨?_, rfl, ⟨jlp, hjlp, rfl⟩⟩
  have hFdbcol : dfF.colIdx "db" = some jdb' := by
    rw [colIdx_congr dfF dfE hFc]
    exact hE_db
  show dfF.cell i "db" = _
  rw [cell_eq_entry dfF i "db" jdb' hFdbcol, hFent]
  simp [dbNorm]

/-- Witness for claim C2 on concrete tables: the sentinel dual bound -2e20
of row 0 becomes the missing-value marker and the ordinary dual bound 60 of
row 1 is unchanged. -/
theorem c2_witness :
    ∃ r, finalize dfC2 dvC2 = .ok r ∧ r.df.cell 0 "db" = some Val.nan ∧
      r.df.cell 1 "db" = some (Val.num ⟨60, 1⟩) ∧ r.emit = true := by
  rcases hE : finalize dfC2 dvC2 with e | r
  · have hok : (match finalize dfC2 dvC2 with
        | Except.ok _ => true
        | Except.error _ => false) = true := by decide
    rw [hE] at hok
    exact Bool.noConfusion hok
  · have ha := c2_db_normalization dfC2 dvC2 r hE (by decide) (by decide) (by decide)
      0 (by decide) "-2e20" ⟨-200000000000000000000, 1⟩ (by decide) (by decide)
    have hb := c2_db_normalization dfC2 dvC2 r hE (by decide) (by decide) (by decide)
      1 (by decide) "60" ⟨60, 1⟩ (by decide) (by decide)
    refine ⟨r, rfl, ?_, ?_, ha.2.1⟩
    · rw [ha.1]
      decide
    · rw [hb.1]
      decide

/-- C1: counterexample. The claim joins the variable counts to bounds rows by
row position, but set_value stores each count at the row LABEL str(i), and row
labels are the iter tokens of the log, not positions. On a bounds table whose
single row is labeled 5, finalization leaves that row's (position 0)
continuousVarCount at the fill value 0, although one variable row has
rootlpsolval > 0 and rootredcostcall == 0; the count 1 lands on a freshly
appended phantom row labeled 0, growing the table to 3 rows. -/
theorem c1_counterexample :
    (finalize dfC1 dvC2).map
        (fun r => (r.df.cell 0 "nlpvars", r.df.rows.length,
          countPure r.dfvar "rootlpsolval" 0)) =
      Except.ok (some (Val.num (Frac.ofNat 0)), 3, 1) ∧
    Frac.ofNat 0 ≠ Frac.ofNat 1 :=
  ⟨by decide, by decide⟩

/-- C1 (amended): when the bounds-table row labels are exactly the positional
numerals str(0), ..., str(n-1) and are distinct — which is the label-by-iter
layout the claim presumes — and the count columns are fresh, finalization
keeps the row count and stores at every position i the number of variable
rows with rootlpsolval > 0 (resp. solval > 0) and rootredcostcall == i. -/
theorem c1_amended_counts (df0 dfvar0 : DF) (r : FinRes)
    (hok : finalize df0 dfvar0 = .ok r) (hwf : df0.WF)
    (hnd : df0.labels.Nodup)
    (hlab : ∀ i, i < df0.rows.length → df0.labelAt i = some (toString i))
    (hnl : df0.colIdx "nlpvars" = none) (hni : df0.colIdx "nipvars" = none) :
    r.df.rows.length = df0.rows.length ∧
    ∀ i, i < df0.rows.length →
      r.df.cell i "nlpvars" =
        some (.num (Frac.ofNat (countPure r.dfvar "rootlpsolval" i))) ∧
      r.df.cell i "nipvars" =
        some (.num (Frac.ofNat (countPure r.dfvar "solval" i))) := by
  obtain ⟨dv1, dv, dfD, h1, h2, h3, h4⟩ := finalize_inv df0 dfvar0 r hok
  obtain ⟨hDc, hDwf, hDlen, hDlabels, hDval, hDent⟩ :=
    countPhase_exact dv df0 dfD h3 hwf hnd hlab hnl hni
  have hnlD : (DF.mk ((df0.cols ++ ["nlpvars"]) ++ ["nipvars"]) []).colIdx "nlpvars" =
      some df0.cols.length :=
    colIdx_append ⟨df0.cols ++ ["nlpvars"], []⟩ "nlpvars" "nipvars" df0.cols.length
      (colIdx_append_self df0 "nlpvars" hnl []) []
  have hniD : (DF.mk ((df0.cols ++ ["nlpvars"]) ++ ["nipvars"]) []).colIdx "nipvars" =
      some (df0.cols.length + 1) := by
    have := colIdx_append_self ⟨df0.cols ++ ["nlpvars"], []⟩ "nipvars"
      (nipvars_absent df0 ⟨df0.cols ++ ["nlpvars"], []⟩ hni rfl) []
    simpa using this
  by_cases hemp : dfD.rows.isEmpty = true
  · rw [emitPhase_skip dv dfD hemp] at h4
    injection h4 with h4
    subst h4
    have hz : df0.rows.length = 0 := by
      rw [← hDlen]
      exact List.length_eq_zero.mpr (List.isEmpty_iff.mp hemp)
    exact ⟨hDlen, fun i hi => absurd hi (by omega)⟩
  · obtain ⟨dfE, dfF, jlp, jip, hE, hF, hjlp, hjip, hr⟩ :=
      emitPhase_emit dv dfD r h4 (Bool.not_eq_true _ ▸ hemp)
    obtain ⟨hEc, -⟩ := astypeFloat_inv dfD dfE hE
    have hElen : dfE.rows.length = dfD.rows.length := astypeFloat_length dfD dfE hE
    obtain ⟨jdb, hjdb, hFc, hFlen, hFlab, hFother, hFdb⟩ := normalizeDb_inv dfE dfF hF
    have hEcols : dfE.cols = (df0.cols ++ ["nlpvars"]) ++ ["nipvars"] := hEc.trans hDc
    have hFcols : dfF.cols = (df0.cols ++ ["nlpvars"]) ++ ["nipvars"] := hFc.trans hEcols
    have hFnl : dfF.colIdx "nlpvars" = some df0.cols.length := by
      rw [colIdx_congr dfF ⟨(df0.cols ++ ["nlpvars"]) ++ ["nipvars"], []⟩ hFcols]
      exact hnlD
    have hFni : dfF.colIdx "nipvars" = some (df0.cols.length + 1) := by
      rw [colIdx_congr dfF ⟨(df0.cols ++ ["nlpvars"]) ++ ["nipvars"], []⟩ hFcols]
      exact hniD
    have hEnl : dfE.colIdx "nlpvars" = some df0.cols.length := by
      rw [colIdx_congr dfE ⟨(df0.cols ++ ["nlpvars"]) ++ ["nipvars"], []⟩ hEcols]
      exact hnlD
    have hEni : dfE.colIdx "nipvars" = some (df0.cols.length + 1) := by
      rw [colIdx_congr dfE ⟨(df0.cols ++ ["nlpvars"]) ++ ["nipvars"], []⟩ hEcols]
      exact hniD
    have hdbnl : jdb ≠ df0.cols.length := by
      intro hcontra
      have hn1 := colIdx_name dfE "db" jdb hjdb
      have hn2 := colIdx_name dfE "nlpvars" df0.cols.length hEnl
      rw [hcontra, hn2] at hn1
      exact absurd (Option.some.inj hn1) (by decide)
    have hdbni : jdb ≠ df0.cols.length + 1 := by
      intro hcontra
      have hn1 := colIdx_name dfE "db" jdb hjdb
      have hn2 := colIdx_name dfE "nipvars" (df0.cols.length + 1) hEni
      rw [hcontra, hn2] at hn1
      exact absurd (Option.some.inj hn1) (by decide)
    subst hr
    constructor
    · show dfF.rows.length = df0.rows.length
      rw [hFlen, hElen, hDlen]
    · intro i hi
      obtain ⟨hdnl, hdni⟩ := hDval i hi
      have henl : dfE.entry i df0.cols.length =
          some (.num (Frac.ofNat (countPure dv "rootlpsolval" i))) :=
        astypeFloat_entry_num dfD dfE hE i df0.cols.length _ hdnl
      have heni : dfE.entry i (df0.cols.length + 1) =
          some (.num (Frac.ofNat (countPure dv "solval" i))) :=
        astypeFloat_entry_num dfD dfE hE i (df0.cols.length + 1) _ hdni
      constructor
      · show dfF.cell i "nlpvars" =
          some (.num (Frac.ofNat (countPure dv "rootlpsolval" i)))
        rw [cell_eq_entry dfF i "nlpvars" df0.cols.length hFnl,
          hFother i df0.cols.length (fun hc => hdbnl hc.symm)]
        exact henl
      · show dfF.cell i "nipvars" =
          some (.num (Frac.ofNat (countPure dv "solval" i)))
        rw [cell_eq_entry dfF i "nipvars" (df0.cols.length + 1) hFni,
          hFother i (df0.cols.length + 1) (fun hc => hdbni hc.symm)]
        exact heni

/-- C1 witness: on a two-row bounds table whose labels are the numerals 0 and
1, finalization succeeds and the counts are stored at the matching positions;
position 0 receives the count 1 contributed by the single variable row. -/
theorem c1_witness :
    ∃ r, finalize dfC2 dvC2 = .ok r ∧ r.df.rows.length = 2 ∧
      r.df.cell 0 "nlpvars" =
        some (.num (Frac.ofNat (countPure r.dfvar "rootlpsolval" 0))) ∧
      r.df.cell 1 "nipvars" =
        some (.num (Frac.ofNat (countPure r.dfvar "solval" 1))) ∧
      countPure r.dfvar "rootlpsolval" 0 = 1 := by
  cases hE : finalize dfC2 dvC2 with
  | error e =>
      have h0 : (match finalize dfC2 dvC2 with
        | Except.ok _ => true
        | Except.error _ => false) = true := by decide
      rw [hE] at h0
      exact Bool.noConfusion h0
  | ok r =>
      have h := c1_amended_counts dfC2 dvC2 r hE (by decide) (by decide)
        (fun i hi => by
          have hi2 : i < 2 := hi
          interval_cases i <;> decide)
        (by decide) (by decide)
      have hdv : r.dfvar = dvC2_final := by
        obtain ⟨dv1, dv, dfD, h1, h2, h3, h4⟩ := finalize_inv dfC2 dvC2 r hE
        have h1' : dvC2.setIndex "name" = Except.ok dvC2_mid := by decide
        rw [h1'] at h1
        injection h1 with h1
        subst h1
        have h2' : dvC2_mid.astypeFloat = Except.ok dvC2_final := by decide
        rw [h2'] at h2
        injection h2 with h2
        subst h2
        exact emitPhase_dfvar dvC2_final dfD r h4
      refine ⟨r, rfl, h.1.trans (by decide), (h.2 0 (by decide)).1,
        (h.2 1 (by decide)).2, ?_⟩
      rw [hdv]
      decide

/-- Cross-multiplication ordering agrees with the rational order on
positive-denominator fractions. -/
theorem Frac.le_iff (a b : Frac) (ha : 0 < a.den) (hb : 0 < b.den) :
    a.le b = true ↔ a.toRat ≤ b.toRat := by
  unfold Frac.le Frac.toRat
  rw [decide_eq_true_eq]
  have ha' : (0 : ℚ) < (a.den : ℚ) := by exact_mod_cast ha
  have hb' : (0 : ℚ) < (b.den : ℚ) := by exact_mod_cast hb
  rw [div_le_div_iff₀ ha' hb']
  constructor <;> intro h <;> exact_mod_cast h

/-- Cross-multiplication positivity agrees with rational positivity on
positive-denominator fractions. -/
theorem Frac.pos_iff (a : Frac) (ha : 0 < a.den) : a.pos = true ↔ 0 < a.toRat := by
  unfold Frac.pos Frac.toRat
  rw [decide_eq_true_eq]
  have ha' : (0 : ℚ) < (a.den : ℚ) := by exact_mod_cast ha
  rw [lt_div_iff₀ ha', zero_mul]
  constructor
  · intro h
    have hn : 0 < a.num := by nlinarith
    exact_mod_cast hn
  · intro h
    have hn : 0 < a.num := by exact_mod_cast h
    exact mul_pos hn ha

/-- Cross-multiplication equality agrees with rational equality on
positive-denominator fractions. -/
theorem Frac.eqv_iff (a b : Frac) (ha : 0 < a.den) (hb : 0 < b.den) :
    a.eqv b = true ↔ a.toRat = b.toRat := by
  unfold Frac.eqv Frac.toRat
  rw [decide_eq_true_eq]
  have ha' : ((a.den : ℚ)) ≠ 0 := by exact_mod_cast ha.ne'
  have hb' : ((b.den : ℚ)) ≠ 0 := by exact_mod_cast hb.ne'
  rw [div_eq_div_iff ha' hb']
  constructor <;> intro h <;> exact_mod_cast h

/-- Denominators produced by the exponent reader stay positive. -/
theorem readExp_den_pos (num den : ℤ) (r : List Char) (f : Frac) (hden : 0 < den)
    (h : readExp num den r = some f) : 0 < f.den := by
  unfold readExp at h
  repeat' split at h
  all_goals first
    | exact Option.noConfusion h
    | (injection h with h; subst h;
       first
         | exact hden
         | exact mul_pos hden (pow_pos (by norm_num) _))

/-- Denominators produced by the mantissa-tail reader stay positive. -/
theorem readTail_den_pos (num den : ℤ) (cs : List Char) (f : Frac) (hden : 0 < den)
    (h : readTail num den cs = some f) : 0 < f.den := by
  unfold readTail at h
  repeat' split at h
  all_goals first
    | exact Option.noConfusion h
    | (injection h with h; subst h; exact hden)
    | exact readExp_den_pos num den _ f hden h

/-- Every fraction produced by float coercion has a positive denominator, so
the cross-multiplication comparisons used by the model coincide with real
rational comparisons on all coerced values. -/
theorem parseFloat_den_pos (s : String) (f : Frac) (h : parseFloat s = some f) :
    0 < f.den := by
  unfold parseFloat at h
  repeat' split at h
  all_goals first
    | exact Option.noConfusion h
    | exact readTail_den_pos _ _ _ f (pow_pos (by norm_num) _) h
    | exact readTail_den_pos _ _ _ f (by norm_num) h

end BoundsScript
